import Mathlib

/-!
# DiskTest: a verification development

A shallow embedding of `src/disktest.cpp` (the Windows port of the MS-DOS disk
performance tester) and theorems about it.

Conventions of the embedding

* C `int` and `long` are 32 bits wide on the Windows targets of the program; they
  are modelled by `Int`, with `toInt32` applied where the C arithmetic can leave
  the 32-bit range.  `LONGLONG` is modelled the same way with `toInt64`.
* A buffer of `unsigned short` is a `List Nat`; `buf.getD i 0` is `buf[i]`.
* A C string is a `List Char` (the characters before the terminating NUL).
* A `double` is modelled by a rational number; every floating-point operation
  rounds its exact result with a rounding operator `fl : ℚ → ℚ` that the
  definitions take as a parameter (`fl = id` is exact arithmetic).
* Console output (progress dots, messages) has no influence on any value the
  program computes and is left out.
-/

namespace DiskTest

/-! ## Machine integers -/

/-- Value of an integer after conversion to a signed 32-bit `int`/`long`. -/
def toInt32 (x : Int) : Int := (x + 2 ^ 31) % 2 ^ 32 - 2 ^ 31

/-- Value of an integer after conversion to a signed 64-bit `LONGLONG`. -/
def toInt64 (x : Int) : Int := (x + 2 ^ 63) % 2 ^ 64 - 2 ^ 63

/-! ## Constants (lines 25-54) -/

def DEFAULT_TEST_SIZE : Int := 4194304
def DEFAULT_SEEKS : Int := 256
def PATTERN_TESTS : Nat := 10

def PAT_READ : Nat := 1
def PAT_READ_CONTINUOUS : Nat := 2
def PAT_WRITE : Nat := 4
def PAT_WRITE_CONTINUOUS : Nat := 8
def PAT_VERIFY : Nat := 16
def PAT_PROMPT : Nat := 32

def PATTERNS : List Nat :=
  [0x0000, 0xFFFF, 0xFF00, 0xF00F, 0xAA55, 0xA55A, 0x18E7, 0xE718, 0x0001, 0xFFFE]

def PATTERN_CYCLE : List Nat := [0, 0, 0, 0, 0, 0, 0, 0, 1, 1]

/-! ## StopClock (lines 192-202) -/

/-- The function `StopClock()`: `startTime` is the counter value stored by `StartClock`,
`endTime` the value `QueryPerformanceCounter` gives now and `frequency` the value
of `QueryPerformanceFrequency`.  The difference is a `LONGLONG` subtraction; it is
converted to `double`, the frequency is converted to `double`, and the division
is a `double` division.  The literal `0.01` is the `double` nearest to 1/100. -/
def StopClock (fl : ℚ → ℚ) (startTime endTime frequency : Int) : ℚ :=
  let elapsed := fl (fl ((toInt64 (endTime - startTime) : Int) : ℚ) / fl (frequency : ℚ))
  if elapsed > 0 then elapsed else fl (1 / 100)

/-! ## RandomTest (lines 286-347) -/

/-- Conversion `(long)x` of a `double`: the fractional part is discarded. -/
def truncToLong (x : ℚ) : Int := toInt32 (if 0 ≤ x then ⌊x⌋ else ⌈x⌉)

/-- Lines 303-304: `pos = (long)(((double)rand() / RAND_MAX) * max)` followed by
`pos = pos & 0xFFFFFE00`.  `r` is the value of `rand()` and `randMax` the library
constant `RAND_MAX`; both and `max` convert to `double` exactly.  The literal
`0xFFFFFE00` has type `unsigned int`, so `pos` is converted to `unsigned long`
for the `&` and the result is converted back to `long`. -/
def RandomTest.position (fl : ℚ → ℚ) (randMax : Nat) (max : Int) (r : Nat) : Int :=
  let pos := truncToLong (fl (fl ((r : ℚ) / (randMax : ℚ)) * (max : ℚ)))
  toInt32 (((pos % 2 ^ 32).toNat &&& 0xFFFFFE00 : Nat) : Int)

/-- The loop of lines 302-306 filling `positions`; `rand i` is the `i`-th value
drawn from `rand()`. -/
def RandomTest.positions (fl : ℚ → ℚ) (randMax : Nat) (max : Int) (rand : Nat → Nat)
    (Seeks : Int) : List Int :=
  (List.range Seeks.toNat).map (fun i => RandomTest.position fl randMax max (rand i))

/-- One seek followed by one transfer, as issued to the file. -/
inductive Transfer where
  | read (position : Int) (bytes : Int)
  | write (position : Int) (bytes : Int)
  deriving DecidableEq, Repr

def Transfer.isRead : Transfer → Bool
  | .read _ _ => true
  | .write _ _ => false

/-- The loop of lines 321-343: `fuel` is the number of iterations left, `i` the
loop variable and `n` the slot counter cycling through 1..10. -/
def RandomTest.loop (positions : List Int) (transfersize limit : Int) :
    Nat → Nat → Int → List Transfer
  | 0, _, _ => []
  | fuel + 1, i, n =>
    let op := if n ≤ limit then Transfer.read (positions.getD i 0) transfersize
              else Transfer.write (positions.getD i 0) transfersize
    let n1 := n + 1
    op :: RandomTest.loop positions transfersize limit fuel (i + 1) (if n1 > 10 then 1 else n1)

/-- The function `RandomTest(transfersize, readpercent)`, as the sequence of transfers it issues
(none when the file cannot be opened).  `TestSize` and `Seeks` are the globals. -/
def RandomTest (fl : ℚ → ℚ) (randMax : Nat) (openOk : Bool) (TestSize Seeks : Int)
    (rand : Nat → Nat) (transfersize readpercent : Int) : List Transfer :=
  if !openOk then [] else
  let max := toInt32 (TestSize - transfersize)
  let positions := RandomTest.positions fl randMax max rand Seeks
  let limit := Int.tdiv readpercent 10
  RandomTest.loop positions transfersize limit Seeks.toNat 0 1

/-! ## GetDiskFreeSpace, ParamSpecified, GetParam (lines 374-402) -/

/-- The function `GetDiskFreeSpace()`: `freeBytesAvailable` is the 64-bit count the system
reports, `none` when `GetDiskFreeSpaceExA` fails; the cast to `long` keeps the low
32 bits. -/
def GetDiskFreeSpace (freeBytesAvailable : Option Nat) : Int :=
  match freeBytesAvailable with
  | some q => toInt32 (q : Int)
  | none => 0

/-- The test `_strnicmp(arg, param, strlen(param)) == 0`. -/
def strnicmpEq (arg param : List Char) : Bool :=
  (arg.take param.length).map Char.toLower == param.map Char.toLower

/-- The function `ParamSpecified(param)`; `argv` includes the program name at index 0. -/
def ParamSpecified (argv : List (List Char)) (param : List Char) : Bool :=
  (argv.drop 1).any (fun a => strnicmpEq a param)

/-- The function `GetParam(param)`: what follows `param` in the first argument that starts with
it (arguments are taken to fit the 256-byte result buffer). -/
def GetParam (argv : List (List Char)) (param : List Char) : List Char :=
  match (argv.drop 1).find? (fun a => strnicmpEq a param) with
  | some a => a.drop param.length
  | none => []

/-! ## StringToValue (lines 404-422) -/

/-- The C library predicate `isspace` in the "C" locale. -/
def isspace (c : Char) : Bool :=
  c = ' ' || c = '\t' || c = '\n' || c = '\x0b' || c = '\x0c' || c = '\r'

/-- The C library function `strtol(s, &endptr, 10)` for a 32-bit `long`: leading
white space, an optional sign, then decimal digits; the value is clamped to the
range of `long`; without any digit the value is 0 and `endptr` is `s`.  Returns
the value and the rest of the string at `endptr`. -/
def strtol10 (s : List Char) : Int × List Char :=
  let s1 := s.dropWhile isspace
  let neg := s1.head? = some '-'
  let s2 := if s1.head? = some '-' ∨ s1.head? = some '+' then s1.drop 1 else s1
  let ds := s2.takeWhile Char.isDigit
  if ds = [] then (0, s)
  else
    let v : Nat := ds.foldl (fun acc c => acc * 10 + (c.toNat - '0'.toNat)) 0
    let r : Int := if neg then (if (v : Int) > 2 ^ 31 then -(2 ^ 31) else -(v : Int))
                   else (if (v : Int) > 2 ^ 31 - 1 then 2 ^ 31 - 1 else (v : Int))
    (r, s2.dropWhile Char.isDigit)

/-- The function `StringToValue(s)`; a null pointer takes the branch of the empty string. -/
def StringToValue (s : List Char) : Int :=
  if s = [] then DEFAULT_TEST_SIZE else
  let (value, endptr) := strtol10 s
  let value1 :=
    if endptr.head? = some 'K' ∨ endptr.head? = some 'k' then toInt32 (value * 1024)
    else if endptr.head? = some 'M' ∨ endptr.head? = some 'm' then toInt32 (value * (1024 * 1024))
    else value
  if value1 < 65536 then DEFAULT_TEST_SIZE else value1

/-! ## main, lines 105-119: the test-file size -/

/-- The value of the global `TestSize` after line 119 of `main` when `readonly`
is not given.  `x >> 15` on a negative `long` is an arithmetic shift. -/
def main.TestSize (argv : List (List Char)) (freeBytesAvailable : Option Nat) : Int :=
  let TestSize0 := DEFAULT_TEST_SIZE
  let TestSize1 :=
    if ParamSpecified argv "size=".toList then StringToValue (GetParam argv "size=".toList)
    else TestSize0
  let freeSpace := GetDiskFreeSpace freeBytesAvailable
  if freeSpace < TestSize1 || ParamSpecified argv "maxsize".toList then (freeSpace >>> (15 : Nat)) * 2 ^ 15
  else TestSize1

/-! ## CompareWords (lines 456-466) -/

/-- The `for (int i = 0; i < words; i++)` loop of `CompareWords`: `fuel` is the
number of iterations left and `i` the loop variable. -/
def CompareWords.scan (src dst : List Nat) (words : Int) : Nat → Nat → Int
  | 0, _ => 0
  | fuel + 1, i =>
    if src.getD i 0 ≠ dst.getD i 0 then words - (i : Int)
    else CompareWords.scan src dst words fuel (i + 1)

/-- The function `CompareWords(source, destination, words)`. -/
def CompareWords (src dst : List Nat) (words : Int) : Int :=
  CompareWords.scan src dst words words.toNat 0

/-! ## PatternTest (lines 469-582) -/

/-- What the disk and the console feed to one run of `PatternTest`. -/
structure PatternIO where
  /-- `CreateFileA` returned a valid handle. -/
  openOk : Bool
  /-- Width in bits of `size_t` (32 or 64 on the Windows targets). -/
  sizeBits : Nat
  /-- Key waiting at the `_kbhit` poll that follows the write of block `io`. -/
  writeKey : Nat → Option Char
  /-- Key waiting at the `_kbhit` poll that follows the read of block `io`. -/
  readKey : Nat → Option Char
  /-- Content of `readBlock` after the `ReadFile` call for block `io`. -/
  readBack : Nat → List Nat

/-- Variables of the write phase that outlive it. -/
structure WriteState where
  readmax : Int
  QUIT : Bool
  written : Nat
  deriving DecidableEq, Repr

/-- Variables of the compare phase. -/
structure CompareState where
  errCount : Int
  totalErrors : Int
  currentDot : Int
  QUIT : Bool
  read : Nat
  deriving DecidableEq, Repr

/-- Outcome of one run of `PatternTest`. -/
structure PatternResult where
  ret : Int
  QUIT : Bool
  written : Nat
  read : Nat
  deriving DecidableEq, Repr

/-- The write loop `for (int io = 1; io <= max; io++)` of lines 499-526: `fuel` is
the number of iterations left.  `WriteFile` is called whatever `mode` is. -/
def PatternTest.writeLoop (writeKey : Nat → Option Char) : Nat → Nat → WriteState → WriteState
  | 0, _, st => st
  | fuel + 1, io, st =>
    let st1 := { st with written := st.written + 1 }
    match writeKey io with
    | some ch =>
      if ch = ' ' ∨ ch = 's' ∨ ch = 'S' then { st1 with readmax := (io : Int) }
      else if ch = 'q' ∨ ch = 'Q' then { st1 with QUIT := true, readmax := 0 }
      else PatternTest.writeLoop writeKey fuel (io + 1) st1
    | none => PatternTest.writeLoop writeKey fuel (io + 1) st1

/-- Lines 540-566, the body of the compare loop up to the keyboard poll: `block` is
the content of `readBlock` after the `ReadFile` call for block `io`. -/
def PatternTest.compareStep (writeBlock : List Nat) (mode : Nat) (dots readmax : Int)
    (block : List Nat) (io : Nat) (st : CompareState) : CompareState :=
  let errCount1 :=
    if mode &&& PAT_VERIFY ≠ 0 then
      toInt32 (st.errCount + CompareWords writeBlock block (toInt32 (writeBlock.length : Int)))
    else st.errCount
  let next := Int.tdiv (toInt32 ((io : Int) * dots)) readmax
  if next > st.currentDot then
    if errCount1 ≠ 0 then
      { st with currentDot := next, totalErrors := toInt32 (st.totalErrors + 1),
                errCount := 0, read := st.read + 1 }
    else { st with currentDot := next, errCount := errCount1, read := st.read + 1 }
  else { st with errCount := errCount1, read := st.read + 1 }

/-- The compare loop `for (int io = 1; io <= readmax; io++)` of lines 539-576:
`fuel` is the number of iterations left. -/
def PatternTest.compareLoop (writeBlock : List Nat) (mode : Nat) (dots readmax : Int)
    (readBack : Nat → List Nat) (readKey : Nat → Option Char) :
    Nat → Nat → CompareState → CompareState
  | 0, _, st => st
  | fuel + 1, io, st =>
    let st1 := PatternTest.compareStep writeBlock mode dots readmax (readBack io) io st
    match readKey io with
    | some ch =>
      if ch = 'q' ∨ ch = 'Q' then { st1 with QUIT := true }
      else PatternTest.compareLoop writeBlock mode dots readmax readBack readKey fuel (io + 1) st1
    | none =>
      PatternTest.compareLoop writeBlock mode dots readmax readBack readKey fuel (io + 1) st1

/-- Line 484: `int dots = (78 - testStr.length() - 12) / 2`, an unsigned (`size_t`)
computation converted to `int`; `testStr` is `displayStr + " - Writing: "`.  Display
names are ASCII, so the length in characters is the length in bytes. -/
def PatternTest.dots (sizeBits : Nat) (displayStr : String) : Int :=
  let testStrLength : Nat := displayStr.length + " - Writing: ".length
  toInt32 (((78 - (testStrLength : Int) - 12) % 2 ^ sizeBits) / 2)

/-- The function `PatternTest(writeBlock, readBlock, displayStr, mode)`.  `TestSize`
and `QUIT` are the globals on entry; the content of `readBlock` after each read is
given by `env.readBack`.  The result holds the return value, the global `QUIT` on
exit and the numbers of blocks written and read. -/
def PatternTest (env : PatternIO) (TestSize : Int) (QUIT : Bool) (writeBlock : List Nat)
    (displayStr : String) (mode : Nat) : PatternResult :=
  if !env.openOk then { ret := -1, QUIT := QUIT, written := 0, read := 0 }
  else
    let max := toInt32 (Int.tdiv TestSize (32 * 1024))
    let dots := PatternTest.dots env.sizeBits displayStr
    let w := PatternTest.writeLoop env.writeKey max.toNat 1
      { readmax := max, QUIT := QUIT, written := 0 }
    if w.readmax > 0 ∧ mode &&& PAT_READ ≠ 0 then
      let c := PatternTest.compareLoop writeBlock mode dots w.readmax env.readBack env.readKey
        w.readmax.toNat 1
        { errCount := 0, totalErrors := 0, currentDot := 0, QUIT := w.QUIT, read := 0 }
      { ret := c.totalErrors, QUIT := c.QUIT, written := w.written, read := c.read }
    else { ret := 0, QUIT := w.QUIT, written := w.written, read := 0 }

/-! ## MediaTest, lines 601-614: filling the write block -/

/-- The word of line 607, `(pattern << (i % 16)) | (pattern >> (16 - (i % 16)))`
stored into an `unsigned short`; the operands are promoted to `int`, in which a
16-bit value shifted left by at most 15 does not overflow. -/
def walkingWord (pattern : Nat) (i : Nat) : Nat :=
  ((pattern <<< (i % 16)) ||| (pattern >>> (16 - i % 16))) % 2 ^ 16

/-- A loop `for (int i = ...; ...; i++) writeBlock[i] = f(i)`: `fuel` is the number
of iterations left. -/
def fillLoop (f : Nat → Nat) : Nat → Nat → List Nat → List Nat
  | 0, _, blk => blk
  | fuel + 1, i, blk => fillLoop f fuel (i + 1) (blk.set i (f i))

/-- Lines 605-608: the walking-pattern fill. -/
def fillWalking (pattern : Nat) (writeBlock : List Nat) : List Nat :=
  fillLoop (walkingWord pattern) 16384 0 writeBlock

/-- Lines 611-613: the static-pattern fill. -/
def fillStatic (pattern : Nat) (writeBlock : List Nat) : List Nat :=
  fillLoop (fun _ => pattern) 16384 0 writeBlock

/-! ## Reference definitions for size strings -/

/-- The number a string of decimal digits denotes, digit by digit: the first
character is the most significant digit. -/
def decimalValue : List Char → Nat
  | [] => 0
  | c :: cs => (c.toNat - 48) * 10 ^ cs.length + decimalValue cs

/-- The multiplier the help text gives for what follows the number: 1024 for `K`,
1048576 for `M` (either case), 1 otherwise. -/
def suffixMultiplier : List Char → Nat
  | 'K' :: _ => 1024
  | 'k' :: _ => 1024
  | 'M' :: _ => 1048576
  | 'm' :: _ => 1048576
  | _ => 1

/-! ## Reference count and concrete inputs for PatternTest -/

/-- The number of blocks among `1..n` whose content read back differs from the
write block in at least one word. -/
def erroneousBlocks (writeBlock : List Nat) (readBack : Nat → List Nat) (n : Nat) : Nat :=
  ((List.range n).filter (fun i =>
    (List.range writeBlock.length).any (fun k =>
      (readBack (i + 1)).getD k 0 != writeBlock.getD k 0))).length

/-- A 32KB block filled with the static pattern `0xAA55`. -/
def blockAA55 : List Nat := List.replicate 16384 0xAA55

/-- A disk that returns block 3 with word 5 cleared and every other block as
written, nobody at the keyboard. -/
def oneWordOffDisk : PatternIO :=
  { openOk := true, sizeBits := 64, writeKey := fun _ => none, readKey := fun _ => none,
    readBack := fun io => if io = 3 then blockAA55.set 5 0 else blockAA55 }

/-- A disk that returns zeros for every block, nobody at the keyboard. -/
def zeroDisk : PatternIO :=
  { openOk := true, sizeBits := 64, writeKey := fun _ => none, readKey := fun _ => none,
    readBack := fun _ => List.replicate 16384 0 }

/-! ## Reference definitions for the keys of PatternTest -/

/-- A skip key: space, `s` or `S`. -/
def isSkipKey (ch : Char) : Bool := ch = ' ' || ch = 's' || ch = 'S'

/-- A quit key: `q` or `Q`. -/
def isQuitKey (ch : Char) : Bool := ch = 'q' || ch = 'Q'

/-- The poll found no key, or a key that is neither a skip key nor a quit key. -/
def unrecognised (key : Option Char) : Prop :=
  ∀ ch, key = some ch → isSkipKey ch = false ∧ isQuitKey ch = false

/-- The poll found no quit key. -/
def noQuit (key : Option Char) : Prop :=
  ∀ ch, key = some ch → isQuitKey ch = false

/-- A disk that returns every block as written; the user presses `s` after block 2
of the write phase and nothing else. -/
def skipAfterTwo : PatternIO :=
  { openOk := true, sizeBits := 64, writeKey := fun io => if io = 2 then some 's' else none,
    readKey := fun _ => none, readBack := fun _ => blockAA55 }

/-! ## SignalTest (lines 665-761) -/

def POWER_PATTERNS : List Nat := [0x55AA, 0xAA55]

/-- A loop `for (int i = ...; ...; i += 2) { writeBlock[i] = a; writeBlock[i + 1] = b; }`:
`fuel` is the number of iterations left. -/
def fillPairLoop (a b : Nat) : Nat → Nat → List Nat → List Nat
  | 0, _, blk => blk
  | fuel + 1, i, blk => fillPairLoop a b fuel (i + 2) ((blk.set i a).set (i + 1) b)

/-- Lines 705-730: the `switch (ch)` filling the write block for the chosen test. -/
def SignalTest.fill (ch : Char) (writeBlock : List Nat) : List Nat :=
  if ch = '1' then fillPairLoop 0x0080 0x0000 8192 0 writeBlock
  else if ch = '2' then fillPairLoop 0xF7FF 0x0000 8192 0 writeBlock
  else if ch = '3' then fillLoop (fun _ => 0x1000) 16384 0 writeBlock
  else if ch = '4' ∨ ch = '5' then
    fillPairLoop (POWER_PATTERNS.getD 0 0) (POWER_PATTERNS.getD 1 0) 8192 0 writeBlock
  else writeBlock

/-- Lines 741-746: the mode `SignalTest` passes to `PatternTest` for the chosen
test. -/
def SignalTest.testMode (ch : Char) : Nat :=
  let testMode := PAT_READ ||| PAT_WRITE ||| PAT_WRITE_CONTINUOUS
  if ch = '5' then testMode ||| PAT_VERIFY else testMode ||| PAT_READ_CONTINUOUS

/-- One call of `PatternTest` made by `SignalTest`. -/
structure SignalCall where
  choice : Char
  writeBlock : List Nat
  displayStr : String
  mode : Nat
  result : PatternResult

/-- Variables of `SignalTest` and the calls made so far, oldest first. -/
structure SignalState where
  writeBlock : List Nat
  errors : Int
  QUIT : Bool
  calls : List SignalCall

/-- The `while (!endOfTest)` loop of lines 673-753 over the keys the user types at
the menu prompt (the inner `do ... while` skips every key that is not a choice); it
stops at `E` or `Q`, or where the typed keys end.  `envs k` is what the disk and
the console feed to the `k`-th call of `PatternTest` (counted from 0). -/
def SignalTest.menu (TestSize : Int) (envs : Nat → PatternIO) :
    List Char → SignalState → SignalState
  | [], st => st
  | key :: keys, st =>
    let ch := key.toUpper
    if ch = 'E' ∨ ch = 'Q' then st
    else if ch = '1' ∨ ch = '2' ∨ ch = '3' ∨ ch = '4' ∨ ch = '5' then
      let writeBlock := SignalTest.fill ch st.writeBlock
      let displayStr := "Test ".push ch
      let testMode := SignalTest.testMode ch
      let r := PatternTest (envs st.calls.length) TestSize st.QUIT writeBlock displayStr testMode
      SignalTest.menu TestSize envs keys
        { writeBlock := writeBlock,
          errors := if r.ret > 0 then toInt32 (st.errors + r.ret) else st.errors,
          QUIT := r.QUIT,
          calls := st.calls ++ [{ choice := ch, writeBlock := writeBlock,
                                  displayStr := displayStr, mode := testMode, result := r }] }
    else SignalTest.menu TestSize envs keys st

/-- The function `SignalTest()`: `QUIT` is the global on entry and `menuKeys` the
keys typed at the menu prompt. -/
def SignalTest (TestSize : Int) (QUIT : Bool) (envs : Nat → PatternIO)
    (menuKeys : List Char) : SignalState :=
  SignalTest.menu TestSize envs menuKeys
    { writeBlock := List.replicate 16384 0, errors := 0, QUIT := QUIT, calls := [] }

/-! ## InHex and MediaTest (lines 441-446 and 584-663) -/

def PATTERN_NAMES : List String :=
  ["", "", "", "", "", "", "", "", "Walking 1s", "Walking 0s"]

/-- One upper-case hexadecimal digit, as the `%X` conversion prints it. -/
def hexDigit (n : Nat) : Char :=
  if n < 10 then Char.ofNat (48 + n) else Char.ofNat (55 + n)

/-- The function `InHex(value)`: `sprintf` with format `"0x%04X"` of a 16-bit value. -/
def InHex (value : Nat) : String :=
  "0x" ++ String.mk [hexDigit (value / 4096 % 16), hexDigit (value / 256 % 16),
    hexDigit (value / 16 % 16), hexDigit (value % 16)]

/-- One call of `PatternTest` made by `MediaTest`: the loop variable `test`, the
table entries used, and what was passed and returned. -/
structure MediaCall where
  test : Nat
  pattern : Nat
  cycle : Nat
  writeBlock : List Nat
  displayStr : String
  mode : Nat
  result : PatternResult

/-- Variables of `MediaTest` and the calls made so far, oldest first; `ramError`
records the early return of lines 628-632. -/
structure MediaState where
  writeBlock : List Nat
  errors : Int
  QUIT : Bool
  calls : List MediaCall
  ramError : Bool

/-- The loop `for (int test = 1; test <= PATTERN_TESTS; test++)` of lines 601-642:
`fuel` is the number of iterations left.  `envs test` is what the disk and the
console feed to the call of `PatternTest` for `test`. -/
def MediaTest.loop (TestSize : Int) (envs : Nat → PatternIO) :
    Nat → Nat → MediaState → MediaState
  | 0, _, st => st
  | fuel + 1, test, st =>
    let pattern := PATTERNS.getD (test - 1) 0
    let cycle := PATTERN_CYCLE.getD (test - 1) 0
    let writeBlock :=
      if cycle = 1 then fillWalking pattern st.writeBlock else fillStatic pattern st.writeBlock
    let readBlock := writeBlock
    let displayStr :=
      if cycle = 1 then PATTERN_NAMES.getD (test - 1) "" else "Pattern " ++ InHex pattern
    if CompareWords writeBlock readBlock 16384 ≠ 0 then
      { st with writeBlock := writeBlock, ramError := true }
    else
      let r := PatternTest (envs test) TestSize st.QUIT writeBlock displayStr
        (PAT_READ ||| PAT_WRITE ||| PAT_VERIFY)
      let st1 : MediaState :=
        { writeBlock := writeBlock,
          errors := if r.ret > 0 then toInt32 (st.errors + r.ret) else st.errors,
          QUIT := r.QUIT,
          calls := st.calls ++ [{ test := test, pattern := pattern, cycle := cycle,
                                  writeBlock := writeBlock, displayStr := displayStr,
                                  mode := PAT_READ ||| PAT_WRITE ||| PAT_VERIFY, result := r }],
          ramError := false }
      if r.QUIT then st1 else MediaTest.loop TestSize envs fuel (test + 1) st1

/-- The function `MediaTest()`: the state after the loop; `errors` is the total the
summary line reports.  `QUIT` is cleared on entry (line 596). -/
def MediaTest (TestSize : Int) (envs : Nat → PatternIO) : MediaState :=
  MediaTest.loop TestSize envs PATTERN_TESTS 1
    { writeBlock := List.replicate 16384 0, errors := 0, QUIT := false, calls := [],
      ramError := false }

/-- The names `MediaTest` displays, in table order. -/
def mediaNames : List String :=
  ["Pattern 0x0000", "Pattern 0xFFFF", "Pattern 0xFF00", "Pattern 0xF00F", "Pattern 0xAA55",
   "Pattern 0xA55A", "Pattern 0x18E7", "Pattern 0xE718", "Walking 1s", "Walking 0s"]

/-- A disk that returns zeros for every block; the user presses `q` after block 1
of the write phase. -/
def quitAtOnce : PatternIO :=
  { openOk := true, sizeBits := 64, writeKey := fun io => if io = 1 then some 'q' else none,
    readKey := fun _ => none, readBack := fun _ => List.replicate 16384 0 }

/-- A disk whose test file cannot be opened. -/
def noFile : PatternIO :=
  { openOk := false, sizeBits := 64, writeKey := fun _ => none, readKey := fun _ => none,
    readBack := fun _ => [] }

/-- What the `k`-th call (from 0) of `PatternTest` by `MediaTest` must look like:
test `k + 1` of the table, its pattern and cycle flag, its display name, mode
`PAT_READ | PAT_WRITE | PAT_VERIFY`, a 32KB write block filled with the pattern
(static or walking), and as result what `PatternTest` returns for these arguments
with `QUIT` clear on entry. -/
def mediaCallSpec (TestSize : Int) (envs : Nat → PatternIO) (k : Nat) (c : MediaCall) : Prop :=
  c.test = k + 1 ∧ c.pattern = PATTERNS.getD k 0 ∧ c.cycle = PATTERN_CYCLE.getD k 0 ∧
  c.displayStr = mediaNames.getD k "" ∧ c.mode = PAT_READ ||| PAT_WRITE ||| PAT_VERIFY ∧
  c.writeBlock.length = 16384 ∧
  (∀ i, i < 16384 →
    c.writeBlock.getD i 0 = if c.cycle = 1 then walkingWord c.pattern i else c.pattern) ∧
  c.result = PatternTest (envs (k + 1)) TestSize false c.writeBlock c.displayStr
    (PAT_READ ||| PAT_WRITE ||| PAT_VERIFY)

/-- The contribution of one call to the error total of `MediaTest`: its result when
positive, nothing otherwise (a failed open returns -1). -/
def countedErrors (c : MediaCall) : Int := if c.result.ret > 0 then c.result.ret else 0

/-! ## Reference definitions for the error tally of PatternTest -/

/-- The block read back differs from the write block in at least one word. -/
def blockMismatch (writeBlock block : List Nat) : Bool :=
  (List.range writeBlock.length).any (fun k => block.getD k 0 != writeBlock.getD k 0)

/-- Block `io` ends a run: `floor(io * dots / readmax)` is larger than at block
`io - 1`. -/
def markEnd (dots readmax io : Nat) : Bool :=
  decide ((io - 1) * dots / readmax < io * dots / readmax)

/-- The run that block `io` closes (or would close) contains a mismatching block:
some block `b` in `1..io` mismatches and no block from `b` to `io - 1` ends a
run. -/
def runHasMismatch (bad : Nat → Bool) (dots readmax io : Nat) : Bool :=
  (List.range io).any (fun i =>
    bad (i + 1) &&
      (List.range io).all (fun m => decide (m < i + 1) || !markEnd dots readmax m))

/-- Among the maximal runs into which the blocks `1..n` are split by the blocks
that end a run, the number of those that end within `1..n` and contain a
mismatching block. -/
def mismatchedRunsUpTo (bad : Nat → Bool) (dots readmax n : Nat) : Nat :=
  ((List.range n).filter (fun i =>
    markEnd dots readmax (i + 1) && runHasMismatch bad dots readmax (i + 1))).length

/-- The number of runs of the blocks `1..readmax` that contain a mismatching
block. -/
def mismatchedRuns (bad : Nat → Bool) (dots readmax : Nat) : Nat :=
  mismatchedRunsUpTo bad dots readmax readmax

/-- A disk that returns zeros for every block; the user presses `s` after block 2
of the write phase and `q` after block 1 of the compare phase. -/
def skipThenQuit : PatternIO :=
  { openOk := true, sizeBits := 64, writeKey := fun io => if io = 2 then some 's' else none,
    readKey := fun io => if io = 1 then some 'q' else none,
    readBack := fun _ => List.replicate 16384 0 }

/-! ## Reference definitions for the calls of SignalTest -/

/-- The tests chosen at the menu: of the keys typed, in upper case, those before
the first `E` or `Q` that are one of `1` to `5`. -/
def chosenTests (menuKeys : List Char) : List Char :=
  ((menuKeys.map Char.toUpper).takeWhile (fun c => c != 'E' && c != 'Q')).filter
    (fun c => c == '1' || c == '2' || c == '3' || c == '4' || c == '5')

/-- The calls of `PatternTest` a list of chosen tests stands for, one per chosen
test and in order: the `k`-th call fills the write block left by the call before
it (`writeBlock` for the first), displays `Test` and the choice, passes
`SignalTest.testMode` of the choice, and runs with the `QUIT` the call before it
left (`QUIT` for the first). -/
def expectedSignalCalls (TestSize : Int) (envs : Nat → PatternIO) :
    List Char → Nat → List Nat → Bool → List SignalCall
  | [], _, _, _ => []
  | ch :: rest, k, writeBlock, QUIT =>
    let call : SignalCall :=
      { choice := ch, writeBlock := SignalTest.fill ch writeBlock,
        displayStr := "Test ".push ch, mode := SignalTest.testMode ch,
        result := PatternTest (envs k) TestSize QUIT (SignalTest.fill ch writeBlock)
          ("Test ".push ch) (SignalTest.testMode ch) }
    call :: expectedSignalCalls TestSize envs rest (k + 1) call.writeBlock call.result.QUIT

/-! ## Lemmas on CompareWords -/

theorem CompareWords.scan_eq_zero (src dst : List Nat) (words : Int) :
    ∀ (fuel i : Nat), (∀ j, i ≤ j → j < i + fuel → src.getD j 0 = dst.getD j 0) →
      CompareWords.scan src dst words fuel i = 0 := by
  intro fuel
  induction fuel with
  | zero => intro i _; rfl
  | succ f ih =>
    intro i h
    have h0 : src.getD i 0 = dst.getD i 0 := h i (le_refl i) (by omega)
    simp only [CompareWords.scan, h0, ne_eq, not_true_eq_false, if_false]
    exact ih (i + 1) (fun j h1 h2 => h j (by omega) (by omega))

theorem CompareWords.scan_first (src dst : List Nat) (words : Int) (k : Nat)
    (hk : src.getD k 0 ≠ dst.getD k 0) :
    ∀ (fuel i : Nat), i ≤ k → k < i + fuel →
      (∀ j, i ≤ j → j < k → src.getD j 0 = dst.getD j 0) →
      CompareWords.scan src dst words fuel i = words - (k : Int) := by
  intro fuel
  induction fuel with
  | zero => intro i h1 h2; omega
  | succ f ih =>
    intro i h1 h2 h
    by_cases hik : i = k
    · subst hik
      simp only [CompareWords.scan, hk, ne_eq, not_false_eq_true, if_true]
    · have h0 : src.getD i 0 = dst.getD i 0 := h i (le_refl i) (by omega)
      simp only [CompareWords.scan, h0, ne_eq, not_true_eq_false, if_false]
      exact ih (i + 1) (by omega) (by omega) (fun j h3 h4 => h j (by omega) h4)

theorem CompareWords_self (a : List Nat) (words : Int) : CompareWords a a words = 0 :=
  CompareWords.scan_eq_zero a a words _ 0 (fun _ _ _ => rfl)

theorem CompareWords_eq_zero_iff (a b : List Nat) (n : Nat) :
    CompareWords a b n = 0 ↔ ∀ j, j < n → a.getD j 0 = b.getD j 0 := by
  constructor
  · intro h
    by_contra hne
    push_neg at hne
    have hex : ∃ k, k < n ∧ a.getD k 0 ≠ b.getD k 0 := hne
    classical
    have hk := Nat.find_spec hex
    have hmin : ∀ j, j < Nat.find hex → a.getD j 0 = b.getD j 0 := by
      intro j hj
      by_contra hj2
      exact Nat.find_min hex hj ⟨by omega, hj2⟩
    have := CompareWords.scan_first a b n (Nat.find hex) hk.2 n 0 (Nat.zero_le _)
      (by omega) (fun j _ hj => hmin j hj)
    unfold CompareWords at h
    simp only [Int.toNat_ofNat] at h
    rw [this] at h
    omega
  · intro h
    exact CompareWords.scan_eq_zero a b n _ 0 (fun j _ hj => h j (by simpa using hj))

/-- A comparison result is never negative and never exceeds the word count. -/
theorem CompareWords_range (a b : List Nat) (n : Nat) :
    0 ≤ CompareWords a b n ∧ CompareWords a b n ≤ n := by
  by_cases h : ∀ j, j < n → a.getD j 0 = b.getD j 0
  · rw [(CompareWords_eq_zero_iff a b n).2 h]; omega
  · push_neg at h
    have hex : ∃ k, k < n ∧ a.getD k 0 ≠ b.getD k 0 := h
    classical
    have hk := Nat.find_spec hex
    have hmin : ∀ j, j < Nat.find hex → a.getD j 0 = b.getD j 0 := by
      intro j hj
      by_contra hj2
      exact Nat.find_min hex hj ⟨by omega, hj2⟩
    have := CompareWords.scan_first a b n (Nat.find hex) hk.2 n 0 (Nat.zero_le _)
      (by omega) (fun j _ hj => hmin j hj)
    unfold CompareWords
    simp only [Int.toNat_ofNat]
    rw [this]
    omega

/-! ## Lemmas on the pattern fill -/

theorem fillLoop_length (f : Nat → Nat) : ∀ (fuel i : Nat) (blk : List Nat),
    (fillLoop f fuel i blk).length = blk.length := by
  intro fuel
  induction fuel with
  | zero => intro i blk; rfl
  | succ n ih => intro i blk; simp [fillLoop, ih]

theorem fillLoop_getD (f : Nat → Nat) : ∀ (fuel i : Nat) (blk : List Nat) (j : Nat),
    i + fuel ≤ blk.length →
    (fillLoop f fuel i blk).getD j 0 = if i ≤ j ∧ j < i + fuel then f j else blk.getD j 0 := by
  intro fuel
  induction fuel with
  | zero =>
    intro i blk j _
    have : ¬ (i ≤ j ∧ j < i + 0) := by omega
    rw [if_neg this]; rfl
  | succ n ih =>
    intro i blk j h
    rw [fillLoop, ih (i + 1) _ j (by simp; omega)]
    by_cases h1 : i + 1 ≤ j ∧ j < i + 1 + n
    · rw [if_pos h1, if_pos (by omega)]
    · rw [if_neg h1]
      by_cases h2 : j = i
      · subst h2
        have h3 : j < blk.length := by omega
        rw [if_pos (by omega)]
        simp [List.getD_eq_getElem?_getD, List.getElem?_set, h3]
      · rw [if_neg (by omega)]
        have h3 : ¬ i = j := fun h => h2 h.symm
        simp [List.getD_eq_getElem?_getD, List.getElem?_set, h3]

theorem walkingWord_lt (p i : Nat) : walkingWord p i < 2 ^ 16 :=
  Nat.mod_lt _ (by norm_num)

theorem walkingWord_testBit (p : Nat) (hp : p < 2 ^ 16) (i j : Nat) (hj : j < 16) :
    (walkingWord p i).testBit j = p.testBit ((j + 16 - i % 16) % 16) := by
  have hs : i % 16 < 16 := Nat.mod_lt _ (by norm_num)
  generalize hse : i % 16 = s at hs
  unfold walkingWord
  rw [hse]
  simp only [Nat.testBit_mod_two_pow, Nat.testBit_or, Nat.testBit_shiftLeft,
    Nat.testBit_shiftRight, hj, decide_True, Bool.true_and]
  by_cases h : s ≤ j
  · have h1 : p.testBit (16 - s + j) = false :=
      Nat.testBit_lt_two_pow (lt_of_lt_of_le hp (Nat.pow_le_pow_right (by norm_num) (by omega)))
    have h2 : (j + 16 - s) % 16 = j - s := by omega
    simp [h, h1, h2]
  · have h2 : (j + 16 - s) % 16 = 16 - s + j := by omega
    simp [h, h2]
/-! ## Theorems for the claims -/

/-- C3: for word arrays `a`, `b` holding at least `n` words, `CompareWords a b n`
is `n - k` for the smallest index `k < n` at which they differ and `0` when they
agree on the first `n` words; it is `0` on `a` against itself, it is `0` exactly
when the first `n` words agree, and for buffers that differ at index `k` only it
is `n - k`. -/
theorem CompareWords_first_mismatch (a b : List Nat) (n : Nat)
    (_ha : n ≤ a.length) (_hb : n ≤ b.length) :
    (∀ k, k < n → a.getD k 0 ≠ b.getD k 0 → (∀ j, j < k → a.getD j 0 = b.getD j 0) →
        CompareWords a b n = (n : Int) - (k : Int)) ∧
    ((∀ j, j < n → a.getD j 0 = b.getD j 0) → CompareWords a b n = 0) ∧
    CompareWords a a n = 0 ∧
    (CompareWords a b n = 0 ↔ ∀ j, j < n → a.getD j 0 = b.getD j 0) ∧
    (∀ k, k < n → a.getD k 0 ≠ b.getD k 0 →
        (∀ j, j < n → j ≠ k → a.getD j 0 = b.getD j 0) →
        CompareWords a b n = (n : Int) - (k : Int)) := by
  have first : ∀ k, k < n → a.getD k 0 ≠ b.getD k 0 →
      (∀ j, j < k → a.getD j 0 = b.getD j 0) →
      CompareWords a b n = (n : Int) - (k : Int) := by
    intro k hk hne hlt
    unfold CompareWords
    simp only [Int.toNat_ofNat]
    exact CompareWords.scan_first a b n k hne n 0 (Nat.zero_le _) (by omega)
      (fun j _ hj => hlt j hj)
  refine ⟨first, (CompareWords_eq_zero_iff a b n).2, CompareWords_self a n,
    CompareWords_eq_zero_iff a b n, ?_⟩
  intro k hk hne hoth
  exact first k hk hne (fun j hj => hoth j (by omega) (by omega))

/-- Witness for C3: a four-word buffer against a copy corrupted at index 2. -/
theorem CompareWords_first_mismatch_witness :
    CompareWords [0xAA55, 0xAA55, 0xAA55, 0xAA55] [0xAA55, 0xAA55, 0x0000, 0xAA55] 4 = 2 := by
  have h := (CompareWords_first_mismatch [0xAA55, 0xAA55, 0xAA55, 0xAA55]
    [0xAA55, 0xAA55, 0x0000, 0xAA55] 4 (by decide) (by decide)).1 2 (by decide) (by decide)
    (by intro j hj; interval_cases j <;> rfl)
  simpa using h

/-- C7: for a 16-bit pattern and an index `i < 16384`, the word the walking fill
stores at index `i` is the pattern rotated left by `i mod 16` bits within 16 bits
(bit `j` of the word is bit `j - i mod 16`, taken modulo 16, of the pattern); word
0 is the pattern, word `i + 1` is word `i` rotated left by one bit, and word
`i + 16` is word `i`. -/
theorem fillWalking_rotation (pattern : Nat) (hp : pattern < 2 ^ 16)
    (writeBlock : List Nat) (hlen : writeBlock.length = 16384) (i : Nat) (hi : i < 16384) :
    ((fillWalking pattern writeBlock).getD i 0 < 2 ^ 16 ∧
      ∀ j, j < 16 → ((fillWalking pattern writeBlock).getD i 0).testBit j
        = pattern.testBit ((j + 16 - i % 16) % 16)) ∧
    (fillWalking pattern writeBlock).getD 0 0 = pattern ∧
    (i + 1 < 16384 → ∀ j, j < 16 → ((fillWalking pattern writeBlock).getD (i + 1) 0).testBit j
        = ((fillWalking pattern writeBlock).getD i 0).testBit ((j + 15) % 16)) ∧
    (i + 16 < 16384 →
      (fillWalking pattern writeBlock).getD (i + 16) 0 = (fillWalking pattern writeBlock).getD i 0) := by
  have hget : ∀ k, k < 16384 → (fillWalking pattern writeBlock).getD k 0 = walkingWord pattern k := by
    intro k hk
    unfold fillWalking
    rw [fillLoop_getD _ _ _ _ _ (by omega), if_pos (by omega)]
  refine ⟨⟨?_, ?_⟩, ?_, ?_, ?_⟩
  · rw [hget i hi]; exact walkingWord_lt pattern i
  · intro j hj
    rw [hget i hi]; exact walkingWord_testBit pattern hp i j hj
  · rw [hget 0 (by norm_num)]
    apply Nat.eq_of_testBit_eq
    intro j
    by_cases hj : j < 16
    · rw [walkingWord_testBit pattern hp 0 j hj]
      congr 1
      omega
    · have h1 : (walkingWord pattern 0).testBit j = false :=
        Nat.testBit_lt_two_pow (lt_of_lt_of_le (walkingWord_lt pattern 0)
          (Nat.pow_le_pow_right (by norm_num) (by omega)))
      have h2 : pattern.testBit j = false :=
        Nat.testBit_lt_two_pow (lt_of_lt_of_le hp (Nat.pow_le_pow_right (by norm_num) (by omega)))
      rw [h1, h2]
  · intro hi1 j hj
    rw [hget (i + 1) hi1, hget i hi, walkingWord_testBit pattern hp (i + 1) j hj,
      walkingWord_testBit pattern hp i ((j + 15) % 16) (Nat.mod_lt _ (by norm_num))]
    congr 1
    omega
  · intro hi16
    rw [hget (i + 16) hi16, hget i hi]
    unfold walkingWord
    rw [Nat.add_mod_right]

/-- Witness for C7: the walking-ones pattern `0x0001` filled into a zeroed block. -/
theorem fillWalking_rotation_witness :
    (fillWalking 0x0001 (List.replicate 16384 0)).getD 0 0 = 0x0001 :=
  (fillWalking_rotation 0x0001 (by norm_num) (List.replicate 16384 0)
    (List.length_replicate _ _) 5 (by norm_num)).2.1

/-! ### RandomTest: the read/write mix -/

theorem RandomTest.loop_length (positions : List Int) (transfersize limit : Int) :
    ∀ (fuel i : Nat) (n : Int),
      (RandomTest.loop positions transfersize limit fuel i n).length = fuel := by
  intro fuel
  induction fuel with
  | zero => intro i n; rfl
  | succ f ih => intro i n; simp [RandomTest.loop, ih]

/-- The slot counter at iteration `i` is `i mod 10 + 1`, and the loop issues the
transfer chosen by that slot at the position stored for `i`. -/
theorem RandomTest.loop_getElem? (positions : List Int) (transfersize limit : Int) :
    ∀ (fuel i : Nat) (n : Int) (k : Nat), n = ((i % 10 : Nat) : Int) + 1 → k < fuel →
      (RandomTest.loop positions transfersize limit fuel i n)[k]? =
        some (if (((i + k) % 10 : Nat) : Int) + 1 ≤ limit
              then Transfer.read (positions.getD (i + k) 0) transfersize
              else Transfer.write (positions.getD (i + k) 0) transfersize) := by
  intro fuel
  induction fuel with
  | zero => intro i n k _ hk; omega
  | succ f ih =>
    intro i n k hn hk
    cases k with
    | zero =>
      simp only [RandomTest.loop, List.getElem?_cons_zero, Nat.add_zero, hn]
    | succ k =>
      simp only [RandomTest.loop, List.getElem?_cons_succ]
      rw [ih (i + 1) _ k (by split <;> omega) (by omega)]
      have : i + 1 + k = i + (k + 1) := by omega
      rw [this]

/-- C4: for `Seeks ≥ 0` and `readpercent` in 0..100, `RandomTest` issues `Seeks`
transfers and the `i`-th (0-based) is a read if `i mod 10 + 1 ≤ readpercent / 10`
and a write otherwise; with `readpercent = 70` and `Seeks = 10` these are 7 reads
followed by 3 writes, and with `readpercent = 100` no transfer is a write, whatever
`Seeks` is. -/
theorem RandomTest_read_write_mix (fl : ℚ → ℚ) (randMax : Nat) (TestSize : Int)
    (rand : Nat → Nat) (transfersize Seeks readpercent : Int)
    (hS : 0 ≤ Seeks) (hr0 : 0 ≤ readpercent) (_hr1 : readpercent ≤ 100) :
    (RandomTest fl randMax true TestSize Seeks rand transfersize readpercent).length
        = Seeks.toNat ∧
    (∀ i : Nat, (i : Int) < Seeks →
      ((RandomTest fl randMax true TestSize Seeks rand transfersize readpercent).map
          Transfer.isRead)[i]?
        = some (decide (((i % 10 : Nat) : Int) + 1 ≤ readpercent / 10))) ∧
    (RandomTest fl randMax true TestSize 10 rand transfersize 70).map Transfer.isRead
        = [true, true, true, true, true, true, true, false, false, false] ∧
    (∀ (Seeks1 : Int) (op : Transfer),
      op ∈ RandomTest fl randMax true TestSize Seeks1 rand transfersize 100 →
        op.isRead = true) := by
  refine ⟨?_, ?_, ?_, ?_⟩
  · simp [RandomTest, RandomTest.loop_length]
  · intro i hi
    have hi2 : i < Seeks.toNat := by omega
    simp only [RandomTest, Bool.not_true, Bool.false_eq_true, if_false, List.getElem?_map]
    rw [RandomTest.loop_getElem? _ _ _ _ 0 1 i (by norm_num) hi2,
      Int.tdiv_eq_ediv hr0 (by norm_num)]
    simp only [Nat.zero_add, Option.map_some']
    by_cases h : ((i % 10 : Nat) : Int) + 1 ≤ readpercent / 10
    · rw [if_pos h, decide_eq_true h]; rfl
    · rw [if_neg h, decide_eq_false h]; rfl
  · rfl
  · intro Seeks1 op hop
    obtain ⟨k, hk⟩ := List.getElem?_of_mem hop
    have hlt : k < (RandomTest fl randMax true TestSize Seeks1 rand transfersize 100).length := by
      by_contra hge
      rw [List.getElem?_eq_none (by omega)] at hk
      exact Option.noConfusion hk
    have hlen : (RandomTest fl randMax true TestSize Seeks1 rand transfersize 100).length
        = Seeks1.toNat := by
      simp [RandomTest, RandomTest.loop_length]
    simp only [RandomTest, Bool.not_true, Bool.false_eq_true, if_false] at hk
    rw [RandomTest.loop_getElem? _ _ _ _ 0 1 k (by norm_num) (by omega)] at hk
    have h10 : Int.tdiv 100 10 = 10 := by decide
    rw [h10, if_pos (by omega)] at hk
    cases hk
    rfl

/-- Witness for C4: the 8K mixed pass of `main`, 256 seeks at 70 percent reads. -/
theorem RandomTest_read_write_mix_witness :
    (RandomTest id 32767 true 4194304 256 (fun i => i) 8192 70).length = 256 :=
  (RandomTest_read_write_mix id 32767 4194304 (fun i => i) 8192 256 70
    (by decide) (by decide) (by decide)).1

/-! ### RandomTest: the positions -/

theorem digits_foldl (ds : List Char) : ∀ acc : Nat,
    ds.foldl (fun acc c => acc * 10 + (c.toNat - '0'.toNat)) acc
      = acc * 10 ^ ds.length + decimalValue ds := by
  induction ds with
  | nil => intro acc; simp [decimalValue]
  | cons c cs ih =>
    intro acc
    rw [List.foldl_cons, ih, decimalValue, List.length_cons, pow_succ]
    have : '0'.toNat = 48 := rfl
    rw [this]
    ring

theorem takeWhile_digits (ds rest : List Char) (hdig : ∀ c ∈ ds, c.isDigit = true)
    (hrest : ∀ c, rest.head? = some c → c.isDigit = false) :
    (ds ++ rest).takeWhile Char.isDigit = ds ∧ (ds ++ rest).dropWhile Char.isDigit = rest := by
  induction ds with
  | nil =>
    cases rest with
    | nil => simp
    | cons c cs =>
      have := hrest c rfl
      simp [List.takeWhile, List.dropWhile, this]
  | cons c cs ih =>
    have hc := hdig c (List.mem_cons_self _ _)
    have := ih (fun d hd => hdig d (List.mem_cons_of_mem _ hd))
    simp [List.takeWhile, List.dropWhile, hc, this.1, this.2]

theorem isDigit_not_space (c : Char) (hc : c.isDigit = true) :
    isspace c = false ∧ c ≠ '-' ∧ c ≠ '+' := by
  refine ⟨?_, ?_, ?_⟩
  · unfold isspace
    have h1 : c ≠ ' ' := by rintro rfl; revert hc; decide
    have h2 : c ≠ '\t' := by rintro rfl; revert hc; decide
    have h3 : c ≠ '\n' := by rintro rfl; revert hc; decide
    have h4 : c ≠ '\x0b' := by rintro rfl; revert hc; decide
    have h5 : c ≠ '\x0c' := by rintro rfl; revert hc; decide
    have h6 : c ≠ '\r' := by rintro rfl; revert hc; decide
    simp [h1, h2, h3, h4, h5, h6]
  · rintro rfl; revert hc; decide
  · rintro rfl; revert hc; decide

theorem strtol10_decimal (ds rest : List Char) (hne : ds ≠ [])
    (hdig : ∀ c ∈ ds, c.isDigit = true)
    (hrest : ∀ c, rest.head? = some c → c.isDigit = false)
    (hfit : decimalValue ds < 2 ^ 31) :
    strtol10 (ds ++ rest) = ((decimalValue ds : Int), rest) := by
  obtain ⟨c, cs, rfl⟩ := List.exists_cons_of_ne_nil hne
  have hc := hdig c (List.mem_cons_self _ _)
  obtain ⟨hs, hm, hp⟩ := isDigit_not_space c hc
  obtain ⟨htw, hdw⟩ := takeWhile_digits (c :: cs) rest hdig hrest
  have hfold := digits_foldl (c :: cs) 0
  unfold strtol10
  have e1 : (c :: cs ++ rest).dropWhile isspace = c :: cs ++ rest := by
    simp [List.dropWhile, hs]
  simp only [e1]
  have e2 : (c :: cs ++ rest).head? = some c := rfl
  simp only [e2, Option.some.injEq, hm, hp, or_self, if_false, htw, hdw, hfold]
  simp only [List.cons_ne_nil, if_false, decide_False, Bool.false_eq_true]
  have hlt : ¬ ((0 * 10 ^ (c :: cs).length + decimalValue (c :: cs) : Nat) : Int) > 2 ^ 31 - 1 := by
    push_cast; omega
  rw [if_neg hlt]
  simp

theorem StringToValue_digits_suffix (ds rest : List Char) (hne : ds ≠ [])
    (hdig : ∀ c ∈ ds, c.isDigit = true)
    (hrest : ∀ c, rest.head? = some c → c.isDigit = false)
    (hfit : decimalValue ds * suffixMultiplier rest < 2 ^ 31) :
    StringToValue (ds ++ rest) =
      if 65536 ≤ decimalValue ds * suffixMultiplier rest
      then ((decimalValue ds * suffixMultiplier rest : Nat) : Int) else 4194304 := by
  have hm1 : 1 ≤ suffixMultiplier rest := by
    unfold suffixMultiplier; split <;> norm_num
  have hv : decimalValue ds < 2 ^ 31 :=
    lt_of_le_of_lt (Nat.le_mul_of_pos_right _ hm1) hfit
  have hst := strtol10_decimal ds rest hne hdig hrest hv
  have hnil : ds ++ rest ≠ [] := by simp [hne]
  unfold StringToValue
  rw [if_neg hnil, hst]
  simp only [DEFAULT_TEST_SIZE]
  generalize decimalValue ds = n at hfit hv ⊢
  match rest, hfit with
  | [], hfit =>
    simp only [suffixMultiplier, List.head?_nil] at hfit ⊢
    simp only [false_or, if_false, reduceCtorEq, mul_one]
    split <;> split <;> omega
  | c :: cs, hfit =>
    simp only [List.head?_cons, Option.some.injEq]
    by_cases hK : c = 'K'
    · subst hK
      simp only [suffixMultiplier, true_or, if_true] at hfit ⊢
      unfold toInt32
      split <;> split <;> omega
    by_cases hk : c = 'k'
    · subst hk
      simp only [suffixMultiplier, or_true, if_true] at hfit ⊢
      unfold toInt32
      split <;> split <;> omega
    by_cases hM : c = 'M'
    · subst hM
      have e : ¬ ('M' = 'K' ∨ 'M' = 'k') := by decide
      simp only [suffixMultiplier, e, true_or, if_true, if_false] at hfit ⊢
      unfold toInt32
      split <;> split <;> omega
    by_cases hmm : c = 'm'
    · subst hmm
      have e : ¬ ('m' = 'K' ∨ 'm' = 'k') := by decide
      simp only [suffixMultiplier, e, or_true, if_true, if_false] at hfit ⊢
      unfold toInt32
      split <;> split <;> omega
    · have e : suffixMultiplier (c :: cs) = 1 := by
        unfold suffixMultiplier
        split <;> simp_all
      rw [e] at hfit ⊢
      simp only [hK, hk, hM, hmm, or_self, if_false, mul_one]
      split <;> split <;> omega

/-- C6: for a size string made of a decimal number `n` followed by an optional
suffix (anything that does not start with a digit), with multiplier `m` = 1024 for
`K`/`k`, 1048576 for `M`/`m` and 1 otherwise, and `n * m` below `2^31`:
`StringToValue` returns `n * m` when `n * m ≥ 65536` and the default 4194304 when
`n * m < 65536`; it returns 4194304 for the empty string; "300K" gives 307200,
"16M" gives 16777216 and "63K" gives 4194304. -/
theorem StringToValue_decimal (ds rest : List Char) (hne : ds ≠ [])
    (hdig : ∀ c ∈ ds, c.isDigit = true)
    (hrest : ∀ c, rest.head? = some c → c.isDigit = false)
    (hfit : decimalValue ds * suffixMultiplier rest < 2 ^ 31) :
    StringToValue (ds ++ rest) =
      (if 65536 ≤ decimalValue ds * suffixMultiplier rest
       then ((decimalValue ds * suffixMultiplier rest : Nat) : Int) else 4194304) ∧
    StringToValue [] = 4194304 ∧
    StringToValue "300K".toList = 307200 ∧
    StringToValue "16M".toList = 16777216 ∧
    StringToValue "63K".toList = 4194304 :=
  ⟨StringToValue_digits_suffix ds rest hne hdig hrest hfit, by decide, by decide, by decide,
    by decide⟩

/-- Witness for C6: the size string "300K" of the help text. -/
theorem StringToValue_decimal_witness :
    StringToValue ("300".toList ++ "K".toList) =
      (if 65536 ≤ decimalValue "300".toList * suffixMultiplier "K".toList
       then ((decimalValue "300".toList * suffixMultiplier "K".toList : Nat) : Int)
       else 4194304) :=
  (StringToValue_decimal "300".toList "K".toList (by decide) (by decide) (by decide)
    (by decide)).1

/-! ### StopClock -/

/-- C8, counterexample: with exact arithmetic, one counter tick at 1000 ticks per
second is an elapsed time of 0.001 s; `StopClock` returns 0.001, not
`max(0.001, 0.01) = 0.01`. -/
theorem StopClock_not_max :
    ¬ (StopClock id 0 1 1000 = max ((((1 - 0 : Int) : ℚ)) / ((1000 : Int) : ℚ)) (1 / 100)) := by
  have h : StopClock id 0 1 1000 = 1 / 1000 := by
    have e : toInt64 (1 - 0) = 1 := by decide
    simp only [StopClock, e, id]
    norm_num
  rw [h]
  norm_num

/-- C8, amended: with `elapsed = (end - start) / frequency` as an exact rational
(the counter difference fitting 64 bits), `StopClock` returns `elapsed` when
`elapsed > 0` and 0.01 otherwise; this is `max(elapsed, 0.01)` whenever
`elapsed ≤ 0` or `elapsed ≥ 0.01`. -/
theorem StopClock_exact (startTime endTime frequency : Int) (_hf : 0 < frequency)
    (hlo : -(2 ^ 63) ≤ endTime - startTime) (hhi : endTime - startTime < 2 ^ 63) :
    StopClock id startTime endTime frequency =
      (if 0 < ((endTime - startTime : Int) : ℚ) / (frequency : ℚ)
       then ((endTime - startTime : Int) : ℚ) / (frequency : ℚ) else 1 / 100) ∧
    ((((endTime - startTime : Int) : ℚ) / (frequency : ℚ) ≤ 0 ∨
        1 / 100 ≤ ((endTime - startTime : Int) : ℚ) / (frequency : ℚ)) →
      StopClock id startTime endTime frequency =
        max (((endTime - startTime : Int) : ℚ) / (frequency : ℚ)) (1 / 100)) := by
  have e : toInt64 (endTime - startTime) = endTime - startTime := by
    unfold toInt64; omega
  have h1 : StopClock id startTime endTime frequency =
      (if 0 < ((endTime - startTime : Int) : ℚ) / (frequency : ℚ)
       then ((endTime - startTime : Int) : ℚ) / (frequency : ℚ) else 1 / 100) := by
    simp only [StopClock, e, id, gt_iff_lt]
  refine ⟨h1, ?_⟩
  intro h
  rw [h1]
  rcases h with h | h
  · rw [if_neg (not_lt.2 h), max_eq_right (le_trans h (by norm_num))]
  · rw [if_pos (lt_of_lt_of_le (by norm_num) h), max_eq_left h]

/-- Witness for C8 (amended): 5 ticks at 1000 ticks per second. -/
theorem StopClock_exact_witness :
    StopClock id 0 5 1000 =
      (if 0 < ((5 - 0 : Int) : ℚ) / ((1000 : Int) : ℚ)
       then ((5 - 0 : Int) : ℚ) / ((1000 : Int) : ℚ) else 1 / 100) :=
  (StopClock_exact 0 5 1000 (by decide) (by decide) (by decide)).1

/-- C9: for every start and end counter value and every positive frequency, the
value `StopClock` returns is strictly positive; this holds for every rounding of
the `double` operations under which the literal `0.01` is positive. -/
theorem StopClock_pos (fl : ℚ → ℚ) (hlit : 0 < fl (1 / 100))
    (startTime endTime frequency : Int) (_hf : 0 < frequency) :
    0 < StopClock fl startTime endTime frequency := by
  unfold StopClock
  simp only []
  split
  · assumption
  · exact hlit

/-- Witness for C9: equal start and end counters, exact arithmetic. -/
theorem StopClock_pos_witness : 0 < StopClock id 7 7 1000 :=
  StopClock_pos id (by norm_num) 7 7 1000 (by decide)

/-! ### main: the test-file size -/

theorem StringToValue_ge (s : List Char) : 65536 ≤ StringToValue s := by
  unfold StringToValue
  simp only [DEFAULT_TEST_SIZE]
  have key : ∀ v : Int, (65536 : Int) ≤ (if v < 65536 then 4194304 else v) := by
    intro v; split <;> omega
  split
  · norm_num
  · exact key _

theorem truncate_32K (x : Int) :
    (x >>> (15 : Nat)) * 2 ^ 15 % 512 = 0 ∧ (x >>> (15 : Nat)) * 2 ^ 15 % 32768 = 0 ∧
    (x >>> (15 : Nat)) * 2 ^ 15 ≤ x ∧ x - 32768 < (x >>> (15 : Nat)) * 2 ^ 15 := by
  rw [Int.shiftRight_eq_div_pow]
  norm_num
  omega

/-- C10, counterexample: with no `size=` argument and 1000 bytes free, the test-file
size is 0, which is below 65536. -/
theorem main_TestSize_below_64K :
    ¬ (65536 ≤ main.TestSize ["disktest".toList] (some 1000)) := by
  decide

/-- C10, amended: for every free-space value below `2^31` bytes and every `size=`
argument, the test-file size `main` computes in non-read-only mode is at least
65536 whenever the free space is at least 65536; when it is derived from free
space (free space below the requested size, or `maxsize` given) it is a multiple
of 512 that does not exceed the free space; otherwise it is the requested size,
which is at least 65536. -/
theorem main_TestSize_bounds (argv : List (List Char)) (freeBytes : Nat)
    (requested : Int) (hfree : freeBytes < 2 ^ 31)
    (hreq : requested =
      if ParamSpecified argv "size=".toList then StringToValue (GetParam argv "size=".toList)
      else DEFAULT_TEST_SIZE) :
    (65536 ≤ freeBytes → 65536 ≤ main.TestSize argv (some freeBytes)) ∧
    (((freeBytes : Int) < requested ∨ ParamSpecified argv "maxsize".toList = true) →
      main.TestSize argv (some freeBytes) % 512 = 0 ∧
      main.TestSize argv (some freeBytes) ≤ (freeBytes : Int)) ∧
    (¬ ((freeBytes : Int) < requested ∨ ParamSpecified argv "maxsize".toList = true) →
      main.TestSize argv (some freeBytes) = requested ∧ 65536 ≤ requested) := by
  have hge : 65536 ≤ requested := by
    rw [hreq]; split
    · exact StringToValue_ge _
    · norm_num [DEFAULT_TEST_SIZE]
  have hcast : GetDiskFreeSpace (some freeBytes) = (freeBytes : Int) := by
    show toInt32 (freeBytes : Int) = (freeBytes : Int)
    unfold toInt32
    omega
  obtain ⟨t1, _, t3, t4⟩ := truncate_32K (freeBytes : Int)
  have hts : main.TestSize argv (some freeBytes) =
      if (freeBytes : Int) < requested ∨ ParamSpecified argv "maxsize".toList = true
      then ((freeBytes : Int) >>> (15 : Nat)) * 2 ^ 15 else requested := by
    unfold main.TestSize
    simp only [← hreq, hcast, Bool.or_eq_true, decide_eq_true_eq]
  refine ⟨?_, ?_, ?_⟩
  · intro h
    rw [hts]; split <;> omega
  · intro h
    rw [hts, if_pos h]
    exact ⟨t1, t3⟩
  · intro h
    rw [hts, if_neg h]
    exact ⟨rfl, hge⟩

/-- Witness for C10 (amended): `size=8M` requested with 3000000 bytes free. -/
theorem main_TestSize_bounds_witness :
    main.TestSize ["disktest".toList, "size=8M".toList] (some 3000000) % 512 = 0 ∧
    main.TestSize ["disktest".toList, "size=8M".toList] (some 3000000)
      ≤ ((3000000 : Nat) : Int) :=
  (main_TestSize_bounds ["disktest".toList, "size=8M".toList] 3000000 8388608
    (by decide) (by decide)).2.1 (Or.inl (by decide))

/-! ### PatternTest: the progress index -/

/-- In range the progress index `(io * dots) / readmax` is a plain quotient. -/
theorem next_eq (d : Int) (N io : Nat) (hd1 : 1 ≤ d) (hd2 : d ≤ 32768) (hN2 : N < 65536)
    (hio : io ≤ N) :
    Int.tdiv (toInt32 ((io : Int) * d)) (N : Int) = ((io : Int) * d) / (N : Int) := by
  have h0 : 0 ≤ (io : Int) * d := mul_nonneg (Int.ofNat_nonneg io) (by omega)
  have h1 : (io : Int) * d ≤ 65535 * 32768 :=
    mul_le_mul (by omega) hd2 (by omega) (by norm_num)
  have e : toInt32 ((io : Int) * d) = (io : Int) * d := by
    unfold toInt32; omega
  rw [e, Int.tdiv_eq_ediv h0 (Int.ofNat_nonneg N)]

theorem next_zero (d : Int) (N : Nat) :
    Int.tdiv (toInt32 (((0 : Nat) : Int) * d)) (N : Int) = 0 := by
  simp [toInt32]

theorem next_mono (d : Int) (N io : Nat) (hd1 : 1 ≤ d) (hd2 : d ≤ 32768) (hN1 : 1 ≤ N)
    (hN2 : N < 65536) (hio : io < N) :
    Int.tdiv (toInt32 ((io : Int) * d)) (N : Int)
      ≤ Int.tdiv (toInt32 (((io + 1 : Nat) : Int) * d)) (N : Int) := by
  rw [next_eq d N io hd1 hd2 hN2 (by omega), next_eq d N (io + 1) hd1 hd2 hN2 (by omega)]
  apply Int.ediv_le_ediv (by omega)
  apply mul_le_mul_of_nonneg_right _ (by omega)
  push_cast; omega

theorem next_last (d : Int) (N : Nat) (hd1 : 1 ≤ d) (hd2 : d ≤ 32768) (hN1 : 1 ≤ N)
    (hN2 : N < 65536) :
    Int.tdiv (toInt32 ((N : Int) * d)) (N : Int) = d := by
  rw [next_eq d N N hd1 hd2 hN2 (le_refl _)]
  exact Int.mul_ediv_cancel_left d (by omega)

theorem next_lt (d : Int) (N io : Nat) (hd1 : 1 ≤ d) (hd2 : d ≤ 32768)
    (hN2 : N < 65536) (hio : io < N) :
    Int.tdiv (toInt32 ((io : Int) * d)) (N : Int) < d := by
  rw [next_eq d N io hd1 hd2 hN2 (by omega)]
  apply Int.ediv_lt_of_lt_mul (by omega)
  rw [mul_comm]
  apply mul_lt_mul_of_pos_left _ (by omega)
  exact_mod_cast hio

/-! ### PatternTest: one step of the compare loop -/

theorem compareStep_currentDot (wb : List Nat) (mode : Nat) (d n : Int) (block : List Nat)
    (io : Nat) (st : CompareState) :
    (PatternTest.compareStep wb mode d n block io st).currentDot =
      if Int.tdiv (toInt32 ((io : Int) * d)) n > st.currentDot
      then Int.tdiv (toInt32 ((io : Int) * d)) n else st.currentDot := by
  unfold PatternTest.compareStep
  simp only []
  split_ifs <;> rfl

theorem compareStep_errCount (wb : List Nat) (mode : Nat) (hv : mode &&& PAT_VERIFY ≠ 0)
    (d n : Int) (block : List Nat) (io : Nat) (st : CompareState) :
    (PatternTest.compareStep wb mode d n block io st).errCount =
      if Int.tdiv (toInt32 ((io : Int) * d)) n > st.currentDot then 0
      else toInt32 (st.errCount + CompareWords wb block (toInt32 (wb.length : Int))) := by
  unfold PatternTest.compareStep
  simp only [hv, ne_eq, not_false_eq_true, if_true]
  split_ifs with h1 h2
  · exact h2
  · rfl
  · rfl

theorem compareStep_totalErrors (wb : List Nat) (mode : Nat) (hv : mode &&& PAT_VERIFY ≠ 0)
    (d n : Int) (block : List Nat) (io : Nat) (st : CompareState) :
    (PatternTest.compareStep wb mode d n block io st).totalErrors =
      if Int.tdiv (toInt32 ((io : Int) * d)) n > st.currentDot ∧
          toInt32 (st.errCount + CompareWords wb block (toInt32 (wb.length : Int))) ≠ 0
      then toInt32 (st.totalErrors + 1) else st.totalErrors := by
  unfold PatternTest.compareStep
  simp only [hv, ne_eq, not_false_eq_true, if_true]
  by_cases h1 : Int.tdiv (toInt32 ((io : Int) * d)) n > st.currentDot
  · by_cases h2 : toInt32 (st.errCount + CompareWords wb block (toInt32 (wb.length : Int))) = 0
    · simp [h1, h2]
    · simp [h1, h2]
  · simp [h1]

theorem compareLoop_succ (wb : List Nat) (mode : Nat) (d n : Int) (rb : Nat → List Nat)
    (rk : Nat → Option Char) (hk : ∀ io, rk io = none) (fuel io : Nat) (st : CompareState) :
    PatternTest.compareLoop wb mode d n rb rk (fuel + 1) io st =
      PatternTest.compareLoop wb mode d n rb rk fuel (io + 1)
        (PatternTest.compareStep wb mode d n (rb io) io st) := by
  simp only [PatternTest.compareLoop, hk io]

/-! ### PatternTest: the compare loop without keys -/

/-- With nothing pending and only matching blocks ahead, the tally stays. -/
theorem compareLoop_clean (wb : List Nat) (mode : Nat) (hv : mode &&& PAT_VERIFY ≠ 0)
    (d n : Int) (rb : Nat → List Nat) (rk : Nat → Option Char) (hk : ∀ io, rk io = none) :
    ∀ (fuel io : Nat) (st : CompareState), st.errCount = 0 →
      (∀ k, io ≤ k → k < io + fuel → CompareWords wb (rb k) (toInt32 (wb.length : Int)) = 0) →
      (PatternTest.compareLoop wb mode d n rb rk fuel io st).totalErrors = st.totalErrors := by
  intro fuel
  induction fuel with
  | zero => intro io st _ _; rfl
  | succ f ih =>
    intro io st he hz
    have hc := hz io (le_refl _) (by omega)
    have z : toInt32 (0 + 0) = 0 := by decide
    rw [compareLoop_succ wb mode d n rb rk hk, ih (io + 1) _ _ (fun k h1 h2 => hz k (by omega) (by omega))]
    · rw [compareStep_totalErrors wb mode hv, he, hc, z]
      simp
    · rw [compareStep_errCount wb mode hv, he, hc, z]
      simp

/-- With a mismatch pending and only matching blocks ahead, the next progress mark
(at the latest the one of the last block) adds exactly one to the tally. -/
theorem compareLoop_pending (wb : List Nat) (mode : Nat) (hv : mode &&& PAT_VERIFY ≠ 0)
    (d : Int) (N : Nat) (hd1 : 1 ≤ d) (hd2 : d ≤ 32768) (hN1 : 1 ≤ N) (hN2 : N < 65536)
    (rb : Nat → List Nat) (rk : Nat → Option Char) (hk : ∀ io, rk io = none) :
    ∀ (fuel io : Nat) (st : CompareState), 1 ≤ io → io + fuel = N + 1 → 1 ≤ fuel →
      0 < st.errCount → st.errCount < 2 ^ 31 →
      st.currentDot = Int.tdiv (toInt32 (((io - 1 : Nat) : Int) * d)) (N : Int) →
      (∀ k, io ≤ k → k ≤ N → CompareWords wb (rb k) (toInt32 (wb.length : Int)) = 0) →
      (PatternTest.compareLoop wb mode d N rb rk fuel io st).totalErrors
        = toInt32 (st.totalErrors + 1) := by
  intro fuel
  induction fuel with
  | zero => intro io st _ _ h; omega
  | succ f ih =>
    intro io st hio hsum _ he0 he1 hcd hz
    have hc := hz io (le_refl _) (by omega)
    have e1 : toInt32 (st.errCount + 0) = st.errCount := by unfold toInt32; omega
    rw [compareLoop_succ wb mode d N rb rk hk]
    by_cases hT : Int.tdiv (toInt32 ((io : Int) * d)) (N : Int) > st.currentDot
    · rw [compareLoop_clean wb mode hv d N rb rk hk f (io + 1) _ _
        (fun k h1 h2 => hz k (by omega) (by omega))]
      · rw [compareStep_totalErrors wb mode hv, hc, e1, if_pos ⟨hT, by omega⟩]
      · rw [compareStep_errCount wb mode hv, if_pos hT]
    · have hf : 1 ≤ f := by
        by_contra hf0
        have hioN : io = N := by omega
        apply hT
        rw [hcd, hioN, next_last d N hd1 hd2 hN1 hN2]
        exact next_lt d N (N - 1) hd1 hd2 hN2 (by omega)
      have hmono := next_mono d N (io - 1) hd1 hd2 hN1 hN2 (by omega)
      have hio1 : io - 1 + 1 = io := by omega
      rw [hio1] at hmono
      have hse : (PatternTest.compareStep wb mode d N (rb io) io st).errCount = st.errCount := by
        rw [compareStep_errCount wb mode hv, if_neg hT, hc, e1]
      have hst : (PatternTest.compareStep wb mode d N (rb io) io st).totalErrors
          = st.totalErrors := by
        rw [compareStep_totalErrors wb mode hv, if_neg (fun h => hT h.1)]
      have hsc : (PatternTest.compareStep wb mode d N (rb io) io st).currentDot
          = Int.tdiv (toInt32 (((io + 1 - 1 : Nat) : Int) * d)) (N : Int) := by
        rw [compareStep_currentDot, if_neg hT, Nat.add_sub_cancel]
        omega
      rw [ih (io + 1) _ (by omega) (by omega) hf (by rw [hse]; exact he0)
        (by rw [hse]; exact he1) hsc (fun k h1 h2 => hz k (by omega) h2), hst]


/-- With nothing pending and exactly one mismatching block `j` ahead, the loop adds
exactly one to the tally. -/
theorem compareLoop_one_bad (wb : List Nat) (mode : Nat) (hv : mode &&& PAT_VERIFY ≠ 0)
    (d : Int) (N : Nat) (hd1 : 1 ≤ d) (hd2 : d ≤ 32768) (hN1 : 1 ≤ N) (hN2 : N < 65536)
    (rb : Nat → List Nat) (rk : Nat → Option Char) (hk : ∀ io, rk io = none) (j : Nat)
    (hj0 : 0 < CompareWords wb (rb j) (toInt32 (wb.length : Int)))
    (hj1 : CompareWords wb (rb j) (toInt32 (wb.length : Int)) < 2 ^ 31) :
    ∀ (fuel io : Nat) (st : CompareState), 1 ≤ io → io + fuel = N + 1 → io ≤ j → j ≤ N →
      st.errCount = 0 →
      st.currentDot = Int.tdiv (toInt32 (((io - 1 : Nat) : Int) * d)) (N : Int) →
      (∀ k, io ≤ k → k ≤ N → k ≠ j →
        CompareWords wb (rb k) (toInt32 (wb.length : Int)) = 0) →
      (PatternTest.compareLoop wb mode d N rb rk fuel io st).totalErrors
        = toInt32 (st.totalErrors + 1) := by
  intro fuel
  induction fuel with
  | zero => intro io st _ _ _ _; omega
  | succ f ih =>
    intro io st hio hsum hij hjN he hcd hz
    rw [compareLoop_succ wb mode d N rb rk hk]
    have hmono := next_mono d N (io - 1) hd1 hd2 hN1 hN2 (by omega)
    have hio1 : io - 1 + 1 = io := by omega
    rw [hio1] at hmono
    have hsc : (PatternTest.compareStep wb mode d N (rb io) io st).currentDot
        = Int.tdiv (toInt32 (((io + 1 - 1 : Nat) : Int) * d)) (N : Int) := by
      rw [compareStep_currentDot, Nat.add_sub_cancel]
      split <;> omega
    by_cases hio_j : io = j
    · subst hio_j
      have e0 : ∀ c : Int, 0 < c → c < 2 ^ 31 → toInt32 (0 + c) = c := by
        intro c h1 h2; unfold toInt32; omega
      have e1 : toInt32 (st.errCount + CompareWords wb (rb io) (toInt32 (wb.length : Int)))
          = CompareWords wb (rb io) (toInt32 (wb.length : Int)) := by
        rw [he]; exact e0 _ hj0 hj1
      by_cases hT : Int.tdiv (toInt32 ((io : Int) * d)) (N : Int) > st.currentDot
      · rw [compareLoop_clean wb mode hv d N rb rk hk f (io + 1) _ _
          (fun k h1 h2 => hz k (by omega) (by omega) (by omega))]
        · rw [compareStep_totalErrors wb mode hv, e1, if_pos ⟨hT, ne_of_gt hj0⟩]
        · rw [compareStep_errCount wb mode hv, if_pos hT]
      · have hf : 1 ≤ f := by
          by_contra hf0
          have hioN : io = N := by omega
          apply hT
          rw [hcd, hioN, next_last d N hd1 hd2 hN1 hN2]
          exact next_lt d N (N - 1) hd1 hd2 hN2 (by omega)
        have hse : (PatternTest.compareStep wb mode d N (rb io) io st).errCount
            = CompareWords wb (rb io) (toInt32 (wb.length : Int)) := by
          rw [compareStep_errCount wb mode hv, if_neg hT, e1]
        have hst : (PatternTest.compareStep wb mode d N (rb io) io st).totalErrors
            = st.totalErrors := by
          rw [compareStep_totalErrors wb mode hv, if_neg (fun h => hT h.1)]
        rw [compareLoop_pending wb mode hv d N hd1 hd2 hN1 hN2 rb rk hk f (io + 1) _
          (by omega) (by omega) hf (by rw [hse]; exact hj0) (by rw [hse]; exact hj1) hsc
          (fun k h1 h2 => hz k (by omega) h2 (by omega)), hst]
    · have hc := hz io (le_refl _) (by omega) hio_j
      have z : toInt32 (0 + 0) = 0 := by decide
      have hse : (PatternTest.compareStep wb mode d N (rb io) io st).errCount = 0 := by
        rw [compareStep_errCount wb mode hv, he, hc, z]; simp
      have hst : (PatternTest.compareStep wb mode d N (rb io) io st).totalErrors
          = st.totalErrors := by
        rw [compareStep_totalErrors wb mode hv, he, hc, z]; simp
      rw [ih (io + 1) _ (by omega) (by omega) (by omega) hjN hse hsc
        (fun k h1 h2 h3 => hz k (by omega) h2 h3), hst]


/-! ### PatternTest without keys -/

theorem writeLoop_no_key (wk : Nat → Option Char) (hk : ∀ io, wk io = none) :
    ∀ (fuel io : Nat) (st : WriteState),
      PatternTest.writeLoop wk fuel io st = { st with written := st.written + fuel } := by
  intro fuel
  induction fuel with
  | zero => intro io st; rfl
  | succ f ih =>
    intro io st
    simp only [PatternTest.writeLoop, hk io, ih]
    simp only [Nat.add_assoc, Nat.add_comm 1 f]

/-- The number of progress marks when the display name leaves room for one. -/
theorem dots_eq (sizeBits : Nat) (hbits : 32 ≤ sizeBits) (displayStr : String)
    (hdots : 1 ≤ (78 - ((displayStr.length + 12 : Nat) : Int) - 12) / 2) :
    PatternTest.dots sizeBits displayStr
        = (78 - ((displayStr.length + 12 : Nat) : Int) - 12) / 2 ∧
    1 ≤ PatternTest.dots sizeBits displayStr ∧ PatternTest.dots sizeBits displayStr ≤ 27 := by
  have h12 : " - Writing: ".length = 12 := by decide
  have hpow : (2 : Int) ^ 32 ≤ 2 ^ sizeBits := pow_le_pow_right₀ (by norm_num) hbits
  have hx0 : 0 ≤ 78 - ((displayStr.length + 12 : Nat) : Int) - 12 := by omega
  have hx1 : 78 - ((displayStr.length + 12 : Nat) : Int) - 12 < 2 ^ sizeBits := by
    have : 78 - ((displayStr.length + 12 : Nat) : Int) - 12 < 2 ^ 32 := by omega
    omega
  have hd : PatternTest.dots sizeBits displayStr
      = (78 - ((displayStr.length + 12 : Nat) : Int) - 12) / 2 := by
    unfold PatternTest.dots
    simp only [h12]
    rw [Int.emod_eq_of_lt hx0 hx1]
    unfold toInt32
    omega
  rw [hd]
  refine ⟨rfl, hdots, ?_⟩
  omega

/-- Without a key in the write phase and with at least one block, `PatternTest`
returns the tally of the compare loop run over all blocks of the file. -/
theorem PatternTest_ret_no_write_key (env : PatternIO) (TestSize : Int) (QUIT : Bool)
    (wb : List Nat) (displayStr : String) (mode : Nat)
    (hopen : env.openOk = true) (hwk : ∀ io, env.writeKey io = none)
    (hsize : 32768 ≤ TestSize) (hlong : TestSize < 2 ^ 31) (hread : mode &&& PAT_READ ≠ 0) :
    (PatternTest env TestSize QUIT wb displayStr mode).ret =
      (PatternTest.compareLoop wb mode (PatternTest.dots env.sizeBits displayStr)
        (((TestSize / 32768).toNat : Nat) : Int) env.readBack env.readKey
        (TestSize / 32768).toNat 1
        { errCount := 0, totalErrors := 0, currentDot := 0, QUIT := QUIT, read := 0 }).totalErrors := by
  have hmax : toInt32 (Int.tdiv TestSize (32 * 1024)) = (((TestSize / 32768).toNat : Nat) : Int) := by
    have : (32 : Int) * 1024 = 32768 := by norm_num
    rw [this, Int.tdiv_eq_ediv (by omega) (by norm_num)]
    unfold toInt32
    omega
  have hpos : (0 : Int) < (((TestSize / 32768).toNat : Nat) : Int) := by omega
  unfold PatternTest
  simp only [hopen, Bool.not_true, Bool.false_eq_true, if_false, hmax,
    writeLoop_no_key env.writeKey hwk, Int.toNat_ofNat]
  rw [if_pos ⟨by simpa using hpos, hread⟩]

/-- C2: for every write block, every file of `n ≥ 1` blocks and every display
name that leaves room for at least one progress mark, `PatternTest` with
`PAT_READ | PAT_WRITE | PAT_VERIFY` and no key pressed returns 0 when every block
read back equals the write block, and returns 1 when exactly one block read back
differs from the write block, in exactly one word. -/
theorem PatternTest_end_to_end (env : PatternIO) (TestSize : Int) (QUIT : Bool)
    (wb : List Nat) (displayStr : String)
    (hopen : env.openOk = true) (hbits : 32 ≤ env.sizeBits)
    (hwk : ∀ io, env.writeKey io = none) (hrk : ∀ io, env.readKey io = none)
    (hsize : 32768 ≤ TestSize) (hlong : TestSize < 2 ^ 31) (hlen : wb.length < 2 ^ 31)
    (hdots : 1 ≤ (78 - ((displayStr.length + 12 : Nat) : Int) - 12) / 2) :
    ((∀ io : Nat, 1 ≤ io → (io : Int) ≤ TestSize / 32768 → env.readBack io = wb) →
      (PatternTest env TestSize QUIT wb displayStr
        (PAT_READ ||| PAT_WRITE ||| PAT_VERIFY)).ret = 0) ∧
    (∀ j k : Nat, 1 ≤ j → (j : Int) ≤ TestSize / 32768 → k < wb.length →
      (env.readBack j).getD k 0 ≠ wb.getD k 0 →
      (∀ i, i < wb.length → i ≠ k → (env.readBack j).getD i 0 = wb.getD i 0) →
      (∀ io : Nat, 1 ≤ io → (io : Int) ≤ TestSize / 32768 → io ≠ j → env.readBack io = wb) →
      (PatternTest env TestSize QUIT wb displayStr
        (PAT_READ ||| PAT_WRITE ||| PAT_VERIFY)).ret = 1) := by
  have hv : (PAT_READ ||| PAT_WRITE ||| PAT_VERIFY) &&& PAT_VERIFY ≠ 0 := by decide
  have hr : (PAT_READ ||| PAT_WRITE ||| PAT_VERIFY) &&& PAT_READ ≠ 0 := by decide
  obtain ⟨_, hd1, hd27⟩ := dots_eq env.sizeBits hbits displayStr hdots
  have hwords : toInt32 (wb.length : Int) = ((wb.length : Nat) : Int) := by
    unfold toInt32; omega
  have hN1 : 1 ≤ (TestSize / 32768).toNat := by omega
  have hN2 : (TestSize / 32768).toNat < 65536 := by omega
  have hbound : ∀ io : Nat, io ≤ (TestSize / 32768).toNat → (io : Int) ≤ TestSize / 32768 := by
    intro io h; omega
  constructor
  · intro hall
    rw [PatternTest_ret_no_write_key env TestSize QUIT wb displayStr _ hopen hwk hsize hlong hr,
      compareLoop_clean wb _ hv _ _ env.readBack env.readKey hrk _ 1 _ rfl]
    intro k h1 h2
    rw [hall k h1 (hbound k (by omega))]
    exact CompareWords_self wb _
  · intro j k hj1 hjN hk hne hoth hrest
    have hcw_ne : CompareWords wb (env.readBack j) ((wb.length : Nat) : Int) ≠ 0 := by
      intro h0
      exact hne ((CompareWords_eq_zero_iff wb (env.readBack j) wb.length).1 h0 k hk).symm
    have hcw_rng := CompareWords_range wb (env.readBack j) wb.length
    have hj0 : 0 < CompareWords wb (env.readBack j) (toInt32 (wb.length : Int)) := by
      rw [hwords]; exact lt_of_le_of_ne hcw_rng.1 (Ne.symm hcw_ne)
    have hj2 : CompareWords wb (env.readBack j) (toInt32 (wb.length : Int)) < 2 ^ 31 := by
      rw [hwords]; exact lt_of_le_of_lt hcw_rng.2 (by exact_mod_cast hlen)
    have one : toInt32 (0 + 1) = 1 := by decide
    rw [PatternTest_ret_no_write_key env TestSize QUIT wb displayStr _ hopen hwk hsize hlong hr,
      compareLoop_one_bad wb _ hv _ _ hd1 (by omega) hN1 hN2 env.readBack env.readKey hrk j
        hj0 hj2 _ 1 _ (le_refl 1) (by omega) hj1 (by omega) rfl
        (by simp [toInt32])]
    · exact one
    · intro io h1 h2 h3
      rw [hrest io h1 (hbound io h2) h3]
      exact CompareWords_self wb _


/-- Witness for C2: the 4MB default file, pattern `0xAA55`, block 3 read back with
word 5 cleared. -/
theorem PatternTest_end_to_end_witness :
    (PatternTest oneWordOffDisk 4194304 false blockAA55 "Pattern 0xAA55"
      (PAT_READ ||| PAT_WRITE ||| PAT_VERIFY)).ret = 1 :=
  (PatternTest_end_to_end oneWordOffDisk 4194304 false blockAA55 "Pattern 0xAA55" rfl
    (by decide) (fun _ => rfl) (fun _ => rfl) (by decide) (by decide)
    (by rw [blockAA55, List.length_replicate]; decide) (by decide)).2 3 5 (by decide)
    (by decide) (by rw [blockAA55, List.length_replicate]; decide) (by decide)
    (by
      intro i _ hi
      show (blockAA55.set 5 0).getD i 0 = blockAA55.getD i 0
      rw [List.getD_eq_getElem?_getD, List.getD_eq_getElem?_getD,
        List.getElem?_set_ne (fun h => hi h.symm)])
    (by
      intro io _ _ hio
      show (if io = 3 then blockAA55.set 5 0 else blockAA55) = blockAA55
      rw [if_neg hio])

/-- C1, the code at a failing input: a file of 21 blocks, display name
"Pattern 0xAA55" (20 progress marks), every block read back as zeros, no key.  All
21 compared blocks differ from the write block, yet `PatternTest` returns 20:
blocks 1 and 2 share the first progress mark and are tallied once. -/
theorem PatternTest_tallies_marks_not_blocks :
    (PatternTest zeroDisk 688128 false blockAA55 "Pattern 0xAA55"
      (PAT_READ ||| PAT_WRITE ||| PAT_VERIFY)).ret = 20 ∧
    (PatternTest zeroDisk 688128 false blockAA55 "Pattern 0xAA55"
      (PAT_READ ||| PAT_WRITE ||| PAT_VERIFY)).read = 21 ∧
    erroneousBlocks blockAA55 zeroDisk.readBack 21 = 21 := by
  decide!


/-! ### PatternTest: keys in the write phase -/

theorem isSkipKey_iff (ch : Char) : isSkipKey ch = true ↔ ch = ' ' ∨ ch = 's' ∨ ch = 'S' := by
  simp [isSkipKey, or_assoc]

theorem isQuitKey_iff (ch : Char) : isQuitKey ch = true ↔ ch = 'q' ∨ ch = 'Q' := by
  simp [isQuitKey]

theorem skip_not_quit (ch : Char) (h : isSkipKey ch = true) : ¬ (ch = 'q' ∨ ch = 'Q') := by
  rcases (isSkipKey_iff ch).1 h with rfl | rfl | rfl <;> decide

/-- One turn of the write loop at a poll without a recognised key. -/
theorem writeLoop_succ (wk : Nat → Option Char) (fuel io : Nat) (st : WriteState)
    (h : unrecognised (wk io)) :
    PatternTest.writeLoop wk (fuel + 1) io st =
      PatternTest.writeLoop wk fuel (io + 1) { st with written := st.written + 1 } := by
  cases hk : wk io with
  | none => simp only [PatternTest.writeLoop, hk]
  | some ch =>
    obtain ⟨h1, h2⟩ := h ch hk
    have n1 : ¬ (ch = ' ' ∨ ch = 's' ∨ ch = 'S') := by
      rw [← isSkipKey_iff, h1]; simp
    have n2 : ¬ (ch = 'q' ∨ ch = 'Q') := by
      rw [← isQuitKey_iff, h2]; simp
    simp only [PatternTest.writeLoop, hk, n1, n2, if_false]

/-- Without a recognised key the write loop writes every block. -/
theorem writeLoop_all (wk : Nat → Option Char) :
    ∀ (fuel io : Nat) (st : WriteState),
      (∀ k, io ≤ k → k < io + fuel → unrecognised (wk k)) →
      PatternTest.writeLoop wk fuel io st = { st with written := st.written + fuel } := by
  intro fuel
  induction fuel with
  | zero => intro io st _; rfl
  | succ f ih =>
    intro io st h
    rw [writeLoop_succ wk f io st (h io (le_refl _) (by omega)),
      ih (io + 1) _ (fun k h1 h2 => h k (by omega) (by omega))]
    simp only [Nat.add_assoc, Nat.add_comm 1 f]

/-- A skip key as the first recognised key, after block `j`, ends the write loop
with `j` blocks written and `readmax = j`. -/
theorem writeLoop_skip (wk : Nat → Option Char) (j : Nat) (ch : Char)
    (hj : wk j = some ch) (hs : isSkipKey ch = true) :
    ∀ (fuel io : Nat) (st : WriteState), io ≤ j → j < io + fuel →
      (∀ k, io ≤ k → k < j → unrecognised (wk k)) →
      PatternTest.writeLoop wk fuel io st =
        { st with written := st.written + (j + 1 - io), readmax := (j : Int) } := by
  intro fuel
  induction fuel with
  | zero => intro io st h1 h2; omega
  | succ f ih =>
    intro io st h1 h2 h
    by_cases hio : io = j
    · subst hio
      have e : io + 1 - io = 1 := by omega
      simp only [PatternTest.writeLoop, hj, (isSkipKey_iff ch).1 hs, if_true, e]
    · rw [writeLoop_succ wk f io st (h io (le_refl _) (by omega)),
        ih (io + 1) _ (by omega) (by omega) (fun k h3 h4 => h k (by omega) h4)]
      have e : st.written + 1 + (j + 1 - (io + 1)) = st.written + (j + 1 - io) := by omega
      simp only [e]

/-- A quit key as the first recognised key, after block `j`, ends the write loop
with `QUIT` set and `readmax = 0`. -/
theorem writeLoop_quit (wk : Nat → Option Char) (j : Nat) (ch : Char)
    (hj : wk j = some ch) (hq : isQuitKey ch = true) :
    ∀ (fuel io : Nat) (st : WriteState), io ≤ j → j < io + fuel →
      (∀ k, io ≤ k → k < j → unrecognised (wk k)) →
      PatternTest.writeLoop wk fuel io st =
        { st with written := st.written + (j + 1 - io), QUIT := true, readmax := 0 } := by
  intro fuel
  induction fuel with
  | zero => intro io st h1 h2; omega
  | succ f ih =>
    intro io st h1 h2 h
    by_cases hio : io = j
    · subst hio
      have e : io + 1 - io = 1 := by omega
      have hq2 := (isQuitKey_iff ch).1 hq
      have hns : ¬ (ch = ' ' ∨ ch = 's' ∨ ch = 'S') := by
        rcases hq2 with rfl | rfl <;> decide
      simp only [PatternTest.writeLoop, hj, hns, hq2, if_true, if_false, e]
    · rw [writeLoop_succ wk f io st (h io (le_refl _) (by omega)),
        ih (io + 1) _ (by omega) (by omega) (fun k h3 h4 => h k (by omega) h4)]
      have e : st.written + 1 + (j + 1 - (io + 1)) = st.written + (j + 1 - io) := by omega
      simp only [e]

/-! ### PatternTest: the compare loop without a quit key -/

theorem compareStep_read (wb : List Nat) (mode : Nat) (d n : Int) (block : List Nat)
    (io : Nat) (st : CompareState) :
    (PatternTest.compareStep wb mode d n block io st).read = st.read + 1 ∧
    (PatternTest.compareStep wb mode d n block io st).QUIT = st.QUIT := by
  unfold PatternTest.compareStep
  simp only []
  split_ifs <;> exact ⟨rfl, rfl⟩

theorem compareLoop_succ_noQuit (wb : List Nat) (mode : Nat) (d n : Int) (rb : Nat → List Nat)
    (rk : Nat → Option Char) (fuel io : Nat) (st : CompareState) (h : noQuit (rk io)) :
    PatternTest.compareLoop wb mode d n rb rk (fuel + 1) io st =
      PatternTest.compareLoop wb mode d n rb rk fuel (io + 1)
        (PatternTest.compareStep wb mode d n (rb io) io st) := by
  cases hk : rk io with
  | none => simp only [PatternTest.compareLoop, hk]
  | some ch =>
    have n2 : ¬ (ch = 'q' ∨ ch = 'Q') := by
      rw [← isQuitKey_iff, h ch hk]; simp
    simp only [PatternTest.compareLoop, hk, n2, if_false]

/-- Without a quit key the compare loop reads every block of its range and leaves
`QUIT` as it was. -/
theorem compareLoop_read_all (wb : List Nat) (mode : Nat) (d n : Int) (rb : Nat → List Nat)
    (rk : Nat → Option Char) :
    ∀ (fuel io : Nat) (st : CompareState), (∀ k, io ≤ k → k < io + fuel → noQuit (rk k)) →
      (PatternTest.compareLoop wb mode d n rb rk fuel io st).read = st.read + fuel ∧
      (PatternTest.compareLoop wb mode d n rb rk fuel io st).QUIT = st.QUIT := by
  intro fuel
  induction fuel with
  | zero => intro io st _; exact ⟨rfl, rfl⟩
  | succ f ih =>
    intro io st h
    rw [compareLoop_succ_noQuit wb mode d n rb rk f io st (h io (le_refl _) (by omega))]
    obtain ⟨h1, h2⟩ := ih (io + 1) (PatternTest.compareStep wb mode d n (rb io) io st)
      (fun k h3 h4 => h k (by omega) (by omega))
    obtain ⟨s1, s2⟩ := compareStep_read wb mode d n (rb io) io st
    rw [h1, h2, s1, s2]
    exact ⟨by omega, rfl⟩

/-- The compare loop never reads more blocks than its range. -/
theorem compareLoop_read_le (wb : List Nat) (mode : Nat) (d n : Int) (rb : Nat → List Nat)
    (rk : Nat → Option Char) :
    ∀ (fuel io : Nat) (st : CompareState),
      (PatternTest.compareLoop wb mode d n rb rk fuel io st).read ≤ st.read + fuel := by
  intro fuel
  induction fuel with
  | zero => intro io st; exact le_refl _
  | succ f ih =>
    intro io st
    obtain ⟨s1, _⟩ := compareStep_read wb mode d n (rb io) io st
    have h := ih (io + 1) (PatternTest.compareStep wb mode d n (rb io) io st)
    cases hk : rk io with
    | none => simp only [PatternTest.compareLoop, hk]; omega
    | some ch =>
      simp only [PatternTest.compareLoop, hk]
      split
      · show (PatternTest.compareStep wb mode d n (rb io) io st).read ≤ _
        omega
      · omega


/-- The outcome of `PatternTest` on an opened file, in terms of the state the write
loop leaves. -/
theorem PatternTest_of_writeLoop (env : PatternIO) (TestSize : Int) (QUIT : Bool)
    (wb : List Nat) (displayStr : String) (mode : Nat) (hopen : env.openOk = true)
    (w : WriteState)
    (hw : PatternTest.writeLoop env.writeKey (toInt32 (Int.tdiv TestSize (32 * 1024))).toNat 1
      { readmax := toInt32 (Int.tdiv TestSize (32 * 1024)), QUIT := QUIT, written := 0 } = w) :
    PatternTest env TestSize QUIT wb displayStr mode =
      if w.readmax > 0 ∧ mode &&& PAT_READ ≠ 0 then
        { ret := (PatternTest.compareLoop wb mode (PatternTest.dots env.sizeBits displayStr)
            w.readmax env.readBack env.readKey w.readmax.toNat 1
            { errCount := 0, totalErrors := 0, currentDot := 0, QUIT := w.QUIT,
              read := 0 }).totalErrors,
          QUIT := (PatternTest.compareLoop wb mode (PatternTest.dots env.sizeBits displayStr)
            w.readmax env.readBack env.readKey w.readmax.toNat 1
            { errCount := 0, totalErrors := 0, currentDot := 0, QUIT := w.QUIT,
              read := 0 }).QUIT,
          written := w.written,
          read := (PatternTest.compareLoop wb mode (PatternTest.dots env.sizeBits displayStr)
            w.readmax env.readBack env.readKey w.readmax.toNat 1
            { errCount := 0, totalErrors := 0, currentDot := 0, QUIT := w.QUIT,
              read := 0 }).read }
      else { ret := 0, QUIT := w.QUIT, written := w.written, read := 0 } := by
  unfold PatternTest
  simp only [hopen, Bool.not_true, Bool.false_eq_true, if_false, hw]

/-- C11, counterexample: a file of 4 blocks with `PAT_READ` set; `s` is the first
recognised key and arrives after block 2, then `q` arrives after block 1 of the
compare phase: 2 blocks are written but only 1 is read, not 2.  And with no key at
all but a mode without `PAT_READ`, all 4 blocks are written and none is
compared. -/
theorem PatternTest_skip_then_quit :
    skipThenQuit.writeKey 1 = none ∧ skipThenQuit.writeKey 2 = some 's' ∧
    isSkipKey 's' = true ∧
    (PAT_READ ||| PAT_WRITE ||| PAT_VERIFY) &&& PAT_READ ≠ 0 ∧
    (PatternTest skipThenQuit 131072 false blockAA55 "Pattern 0xAA55"
      (PAT_READ ||| PAT_WRITE ||| PAT_VERIFY)).written = 2 ∧
    ¬ ((PatternTest skipThenQuit 131072 false blockAA55 "Pattern 0xAA55"
      (PAT_READ ||| PAT_WRITE ||| PAT_VERIFY)).read = 2) ∧
    PAT_WRITE &&& PAT_READ = 0 ∧
    (PatternTest zeroDisk 131072 false blockAA55 "Pattern 0xAA55" PAT_WRITE).written = 4 ∧
    ¬ ((PatternTest zeroDisk 131072 false blockAA55 "Pattern 0xAA55" PAT_WRITE).read = 4) := by
  decide!

/-- C11, amended: in the write phase of `PatternTest` over `max` blocks: if a skip
key (space, `s` or `S`) is the first recognised key and arrives after block `io`
was written, `io` blocks are written and the compare phase, run when `PAT_READ` is
set, covers these `io` blocks: it reads exactly `io` blocks when no quit key
arrives during the comparison, and never more than `io`; if a quit key (`q` or `Q`)
is the first recognised key, `QUIT` is set, no block is read or compared and the
result is 0; if no recognised key arrives in the write phase, all `max` blocks are
written and, when `PAT_READ` is set and no quit key arrives during the comparison,
`max` blocks are compared. -/
theorem PatternTest_write_phase_keys (env : PatternIO) (TestSize : Int) (QUIT : Bool)
    (wb : List Nat) (displayStr : String) (mode : Nat) (max : Nat)
    (hopen : env.openOk = true)
    (hmax : max = (toInt32 (Int.tdiv TestSize (32 * 1024))).toNat) :
    (∀ (io : Nat) (ch : Char), 1 ≤ io → io ≤ max → env.writeKey io = some ch →
      isSkipKey ch = true → (∀ k, 1 ≤ k → k < io → unrecognised (env.writeKey k)) →
      (PatternTest env TestSize QUIT wb displayStr mode).written = io ∧
      (PatternTest env TestSize QUIT wb displayStr mode).read ≤ io ∧
      (mode &&& PAT_READ = 0 → (PatternTest env TestSize QUIT wb displayStr mode).read = 0) ∧
      (mode &&& PAT_READ ≠ 0 → (∀ k, 1 ≤ k → k ≤ io → noQuit (env.readKey k)) →
        (PatternTest env TestSize QUIT wb displayStr mode).read = io ∧
        (PatternTest env TestSize QUIT wb displayStr mode).QUIT = QUIT)) ∧
    (∀ (io : Nat) (ch : Char), 1 ≤ io → io ≤ max → env.writeKey io = some ch →
      isQuitKey ch = true → (∀ k, 1 ≤ k → k < io → unrecognised (env.writeKey k)) →
      (PatternTest env TestSize QUIT wb displayStr mode).QUIT = true ∧
      (PatternTest env TestSize QUIT wb displayStr mode).read = 0 ∧
      (PatternTest env TestSize QUIT wb displayStr mode).ret = 0 ∧
      (PatternTest env TestSize QUIT wb displayStr mode).written = io) ∧
    ((∀ k, 1 ≤ k → k ≤ max → unrecognised (env.writeKey k)) →
      (PatternTest env TestSize QUIT wb displayStr mode).written = max ∧
      (PatternTest env TestSize QUIT wb displayStr mode).read ≤ max ∧
      (mode &&& PAT_READ ≠ 0 → (∀ k, 1 ≤ k → k ≤ max → noQuit (env.readKey k)) →
        (PatternTest env TestSize QUIT wb displayStr mode).read = max ∧
        (PatternTest env TestSize QUIT wb displayStr mode).QUIT = QUIT)) := by
  refine ⟨?_, ?_, ?_⟩
  · intro io ch h1 h2 hkey hs hfirst
    have hw := writeLoop_skip env.writeKey io ch hkey hs
      (toInt32 (Int.tdiv TestSize (32 * 1024))).toNat 1
      { readmax := toInt32 (Int.tdiv TestSize (32 * 1024)), QUIT := QUIT, written := 0 }
      h1 (by omega) hfirst
    rw [PatternTest_of_writeLoop env TestSize QUIT wb displayStr mode hopen _ hw]
    simp only [Nat.zero_add, Nat.add_sub_cancel, Int.toNat_ofNat]
    have hpos : (io : Int) > 0 := by omega
    by_cases hr : mode &&& PAT_READ = 0
    · rw [if_neg (fun h => h.2 hr)]
      exact ⟨rfl, Nat.zero_le _, fun _ => rfl, fun h => absurd hr h⟩
    · rw [if_pos ⟨hpos, hr⟩]
      refine ⟨rfl, ?_, fun h => absurd h hr, ?_⟩
      · have := compareLoop_read_le wb mode (PatternTest.dots env.sizeBits displayStr) io
          env.readBack env.readKey io 1
          { errCount := 0, totalErrors := 0, currentDot := 0, QUIT := QUIT, read := 0 }
        simpa using this
      · intro _ hnq
        have := compareLoop_read_all wb mode (PatternTest.dots env.sizeBits displayStr) io
          env.readBack env.readKey io 1
          { errCount := 0, totalErrors := 0, currentDot := 0, QUIT := QUIT, read := 0 }
          (fun k h3 h4 => hnq k h3 (by omega))
        simpa using this
  · intro io ch h1 h2 hkey hq hfirst
    have hw := writeLoop_quit env.writeKey io ch hkey hq
      (toInt32 (Int.tdiv TestSize (32 * 1024))).toNat 1
      { readmax := toInt32 (Int.tdiv TestSize (32 * 1024)), QUIT := QUIT, written := 0 }
      h1 (by omega) hfirst
    rw [PatternTest_of_writeLoop env TestSize QUIT wb displayStr mode hopen _ hw]
    simp
  · intro hnone
    have hw := writeLoop_all env.writeKey
      (toInt32 (Int.tdiv TestSize (32 * 1024))).toNat 1
      { readmax := toInt32 (Int.tdiv TestSize (32 * 1024)), QUIT := QUIT, written := 0 }
      (fun k h3 h4 => hnone k h3 (by omega))
    rw [PatternTest_of_writeLoop env TestSize QUIT wb displayStr mode hopen _ hw]
    simp only [Nat.zero_add, ← hmax]
    by_cases hc : toInt32 (Int.tdiv TestSize (32 * 1024)) > 0 ∧ mode &&& PAT_READ ≠ 0
    · rw [if_pos hc]
      have hread_le := compareLoop_read_le wb mode (PatternTest.dots env.sizeBits displayStr)
          (toInt32 (Int.tdiv TestSize (32 * 1024))) env.readBack env.readKey max 1
          { errCount := 0, totalErrors := 0, currentDot := 0, QUIT := QUIT, read := 0 }
      refine ⟨rfl, by simpa using hread_le, ?_⟩
      intro _ hnq
      have := compareLoop_read_all wb mode (PatternTest.dots env.sizeBits displayStr)
          (toInt32 (Int.tdiv TestSize (32 * 1024))) env.readBack env.readKey max 1
          { errCount := 0, totalErrors := 0, currentDot := 0, QUIT := QUIT, read := 0 }
          (fun k h3 h4 => hnq k h3 (by omega))
      simpa using this
    · rw [if_neg hc]
      refine ⟨rfl, Nat.zero_le _, ?_⟩
      intro hr _
      have hle : ¬ toInt32 (Int.tdiv TestSize (32 * 1024)) > 0 := fun h => hc ⟨h, hr⟩
      exact ⟨by show 0 = max; omega, rfl⟩

/-- Witness for C11 (amended): a file of 4 blocks, `s` pressed after block 2. -/
theorem PatternTest_write_phase_keys_witness :
    (PatternTest skipAfterTwo 131072 false blockAA55 "Pattern 0xAA55"
        (PAT_READ ||| PAT_WRITE ||| PAT_VERIFY)).written = 2 ∧
    (PatternTest skipAfterTwo 131072 false blockAA55 "Pattern 0xAA55"
        (PAT_READ ||| PAT_WRITE ||| PAT_VERIFY)).read = 2 := by
  have h := (PatternTest_write_phase_keys skipAfterTwo 131072 false blockAA55
    "Pattern 0xAA55" (PAT_READ ||| PAT_WRITE ||| PAT_VERIFY) 4 rfl (by decide)).1 2 's'
    (by decide) (by decide) rfl (by decide)
    (by
      intro k h1 h2 ch hk
      have hk1 : k = 1 := by omega
      subst hk1
      exact Option.noConfusion hk)
  exact ⟨h.1, (h.2.2.2 (by decide) (fun k _ _ ch hk => Option.noConfusion hk)).1⟩


/-! ### PatternTest without PAT_VERIFY -/

theorem compareStep_no_verify (wb : List Nat) (mode : Nat) (hv : mode &&& PAT_VERIFY = 0)
    (d n : Int) (block : List Nat) (io : Nat) (st : CompareState)
    (h0 : st.errCount = 0) :
    (PatternTest.compareStep wb mode d n block io st).errCount = 0 ∧
    (PatternTest.compareStep wb mode d n block io st).totalErrors = st.totalErrors := by
  unfold PatternTest.compareStep
  simp only [hv, ne_eq, not_true_eq_false, if_false, h0]
  split_ifs <;> exact ⟨rfl, rfl⟩

/-- Without `PAT_VERIFY` the compare loop never counts an error, whatever is read
back and whatever keys arrive. -/
theorem compareLoop_no_verify (wb : List Nat) (mode : Nat) (hv : mode &&& PAT_VERIFY = 0)
    (d n : Int) (rb : Nat → List Nat) (rk : Nat → Option Char) :
    ∀ (fuel io : Nat) (st : CompareState), st.errCount = 0 →
      (PatternTest.compareLoop wb mode d n rb rk fuel io st).totalErrors = st.totalErrors := by
  intro fuel
  induction fuel with
  | zero => intro io st _; rfl
  | succ f ih =>
    intro io st h0
    obtain ⟨s1, s2⟩ := compareStep_no_verify wb mode hv d n (rb io) io st h0
    have hrec := ih (io + 1) (PatternTest.compareStep wb mode d n (rb io) io st) s1
    cases hk : rk io with
    | none => simp only [PatternTest.compareLoop, hk]; rw [hrec, s2]
    | some ch =>
      simp only [PatternTest.compareLoop, hk]
      split
      · exact s2
      · rw [hrec, s2]

theorem PatternTest_no_verify (env : PatternIO) (TestSize : Int) (QUIT : Bool)
    (wb : List Nat) (displayStr : String) (mode : Nat)
    (hopen : env.openOk = true) (hv : mode &&& PAT_VERIFY = 0) :
    (PatternTest env TestSize QUIT wb displayStr mode).ret = 0 := by
  rw [PatternTest_of_writeLoop env TestSize QUIT wb displayStr mode hopen _ rfl]
  split
  · exact compareLoop_no_verify wb mode hv _ _ _ _ _ _ _ rfl
  · rfl

/-! ### SignalTest: the mode of each test -/

theorem testMode_verify (ch : Char) : SignalTest.testMode ch &&& PAT_VERIFY ≠ 0 ↔ ch = '5' := by
  unfold SignalTest.testMode
  by_cases h : ch = '5'
  · simp only [h, if_true]; decide
  · simp only [h, if_false]; decide

theorem SignalTest.menu_calls (TestSize : Int) (envs : Nat → PatternIO)
    (P : SignalCall → Prop)
    (hP : ∀ (ch : Char) (wb : List Nat) (k : Nat) (q : Bool),
      ch = '1' ∨ ch = '2' ∨ ch = '3' ∨ ch = '4' ∨ ch = '5' →
      P { choice := ch, writeBlock := SignalTest.fill ch wb, displayStr := "Test ".push ch,
          mode := SignalTest.testMode ch,
          result := PatternTest (envs k) TestSize q (SignalTest.fill ch wb) ("Test ".push ch)
            (SignalTest.testMode ch) }) :
    ∀ (keys : List Char) (st : SignalState), (∀ c ∈ st.calls, P c) →
      ∀ c ∈ (SignalTest.menu TestSize envs keys st).calls, P c := by
  intro keys
  induction keys with
  | nil => intro st h; exact h
  | cons key keys ih =>
    intro st h
    unfold SignalTest.menu
    simp only []
    split
    · exact h
    · split
      · rename_i hch
        apply ih
        intro c hc
        rcases List.mem_append.1 hc with hc | hc
        · exact h c hc
        · rw [List.mem_singleton] at hc
          subst hc
          exact hP key.toUpper st.writeBlock st.calls.length st.QUIT hch
      · exact ih st h

/-! ### SignalTest: one call per chosen test -/

theorem chosenTests_nil : chosenTests [] = [] := rfl

theorem chosenTests_cons (key : Char) (keys : List Char) :
    chosenTests (key :: keys) =
      if key.toUpper = 'E' ∨ key.toUpper = 'Q' then []
      else if key.toUpper = '1' ∨ key.toUpper = '2' ∨ key.toUpper = '3' ∨ key.toUpper = '4' ∨
          key.toUpper = '5' then key.toUpper :: chosenTests keys
      else chosenTests keys := by
  unfold chosenTests
  rw [List.map_cons, List.takeWhile_cons]
  by_cases hE : key.toUpper = 'E' ∨ key.toUpper = 'Q'
  · rw [if_pos hE]
    have : (key.toUpper != 'E' && key.toUpper != 'Q') = false := by
      rcases hE with h | h <;> simp [h]
    rw [this]
    rfl
  · rw [if_neg hE]
    push_neg at hE
    have : (key.toUpper != 'E' && key.toUpper != 'Q') = true := by
      simp [hE.1, hE.2]
    rw [this]
    simp only [if_true, List.filter_cons]
    by_cases h5 : key.toUpper = '1' ∨ key.toUpper = '2' ∨ key.toUpper = '3' ∨
        key.toUpper = '4' ∨ key.toUpper = '5'
    · rw [if_pos h5]
      have : (key.toUpper == '1' || key.toUpper == '2' || key.toUpper == '3' ||
          key.toUpper == '4' || key.toUpper == '5') = true := by
        rcases h5 with h | h | h | h | h <;> simp [h]
      rw [this]
      rfl
    · rw [if_neg h5]
      push_neg at h5
      have : (key.toUpper == '1' || key.toUpper == '2' || key.toUpper == '3' ||
          key.toUpper == '4' || key.toUpper == '5') = false := by
        simp [h5.1, h5.2.1, h5.2.2.1, h5.2.2.2.1, h5.2.2.2.2]
      rw [this]
      rfl

/-- The calls `SignalTest.menu` makes are the calls made before followed by one
call per chosen test, in order. -/
theorem SignalTest.menu_eq (TestSize : Int) (envs : Nat → PatternIO) :
    ∀ (keys : List Char) (st : SignalState),
      (SignalTest.menu TestSize envs keys st).calls =
        st.calls ++ expectedSignalCalls TestSize envs (chosenTests keys) st.calls.length
          st.writeBlock st.QUIT := by
  intro keys
  induction keys with
  | nil => intro st; simp [SignalTest.menu, chosenTests_nil, expectedSignalCalls]
  | cons key keys ih =>
    intro st
    rw [chosenTests_cons]
    unfold SignalTest.menu
    simp only []
    by_cases hE : key.toUpper = 'E' ∨ key.toUpper = 'Q'
    · rw [if_pos hE, if_pos hE]
      simp [expectedSignalCalls]
    · rw [if_neg hE, if_neg hE]
      by_cases h5 : key.toUpper = '1' ∨ key.toUpper = '2' ∨ key.toUpper = '3' ∨
          key.toUpper = '4' ∨ key.toUpper = '5'
      · rw [if_pos h5, if_pos h5, ih]
        simp only [expectedSignalCalls, List.length_append, List.length_singleton,
          List.append_assoc, List.singleton_append]
      · rw [if_neg h5, if_neg h5, ih]

/-- Every expected call carries a chosen test, its mode and display name, and the
result of `PatternTest` for what it passes; the first call starts from the given
block and `QUIT`, every later call from those the call before it left. -/
theorem expectedSignalCalls_getElem? (TestSize : Int) (envs : Nat → PatternIO) :
    ∀ (chs : List Char) (k0 : Nat) (wb : List Nat) (q : Bool) (k : Nat) (c : SignalCall),
      (expectedSignalCalls TestSize envs chs k0 wb q)[k]? = some c →
      chs[k]? = some c.choice ∧
      c.mode = SignalTest.testMode c.choice ∧
      c.displayStr = "Test ".push c.choice ∧
      (k = 0 → c.writeBlock = SignalTest.fill c.choice wb ∧
        c.result = PatternTest (envs k0) TestSize q c.writeBlock c.displayStr c.mode) ∧
      (∀ j p, k = j + 1 → (expectedSignalCalls TestSize envs chs k0 wb q)[j]? = some p →
        c.writeBlock = SignalTest.fill c.choice p.writeBlock ∧
        c.result = PatternTest (envs (k0 + k)) TestSize p.result.QUIT c.writeBlock
          c.displayStr c.mode) := by
  intro chs
  induction chs with
  | nil => intro k0 wb q k c h; simp [expectedSignalCalls] at h
  | cons ch rest ih =>
    intro k0 wb q k c h
    rw [expectedSignalCalls] at h ⊢
    cases k with
    | zero =>
      simp only [List.getElem?_cons_zero, Option.some.injEq] at h
      subst h
      refine ⟨by simp, rfl, rfl, fun _ => ⟨rfl, rfl⟩, ?_⟩
      intro j p hj; omega
    | succ k =>
      simp only [List.getElem?_cons_succ] at h
      obtain ⟨h1, h2, h3, h4, h5⟩ := ih _ _ _ k c h
      refine ⟨by simpa using h1, h2, h3, fun h0 => by omega, ?_⟩
      intro j p hj hp
      have hjk : j = k := by omega
      subst hjk
      cases j with
      | zero =>
        simp only [List.getElem?_cons_zero, Option.some.injEq] at hp
        subst hp
        obtain ⟨g1, g2⟩ := h4 rfl
        exact ⟨g1, g2⟩
      | succ j =>
        simp only [List.getElem?_cons_succ] at hp
        obtain ⟨g1, g2⟩ := h5 j p rfl hp
        refine ⟨g1, ?_⟩
        have e : k0 + (j + 1 + 1) = k0 + 1 + (j + 1) := by omega
        rw [e]
        exact g2

theorem chosenTests_mem (keys : List Char) (ch : Char) (h : ch ∈ chosenTests keys) :
    ch = '1' ∨ ch = '2' ∨ ch = '3' ∨ ch = '4' ∨ ch = '5' := by
  unfold chosenTests at h
  rw [List.mem_filter] at h
  simpa [or_assoc] using h.2

theorem expectedSignalCalls_modes (TestSize : Int) (envs : Nat → PatternIO) :
    ∀ (chs : List Char) (k0 : Nat) (wb : List Nat) (q : Bool),
      (expectedSignalCalls TestSize envs chs k0 wb q).map (fun c => (c.choice, c.mode))
        = chs.map (fun ch => (ch, SignalTest.testMode ch)) := by
  intro chs
  induction chs with
  | nil => intro k0 wb q; rfl
  | cons ch rest ih =>
    intro k0 wb q
    rw [expectedSignalCalls, List.map_cons, List.map_cons, ih]

/-- C12: for every mode without the `PAT_VERIFY` bit and every sequence of blocks
read back, `PatternTest` on an openable file returns 0; `SignalTest` makes one call
of `PatternTest` per test chosen at the menu, in order, and passes it
`SignalTest.testMode` of the choice, a mode that contains `PAT_VERIFY` exactly when
the chosen test is `5` and not for tests `1` to `4`; the result it records is what
`PatternTest` returns for the block, name and mode passed, so the calls for tests
`1` to `4` return 0 on an openable file. -/
theorem PatternTest_verify_gate (env : PatternIO) (TestSize : Int) (QUIT : Bool)
    (wb : List Nat) (displayStr : String) (mode : Nat)
    (hopen : env.openOk = true) (hv : mode &&& PAT_VERIFY = 0) :
    (PatternTest env TestSize QUIT wb displayStr mode).ret = 0 ∧
    (∀ ch : Char, SignalTest.testMode ch &&& PAT_VERIFY ≠ 0 ↔ ch = '5') ∧
    (∀ ch : Char, ch = '1' ∨ ch = '2' ∨ ch = '3' ∨ ch = '4' →
      SignalTest.testMode ch &&& PAT_VERIFY = 0) ∧
    (∀ (envs : Nat → PatternIO) (menuKeys : List Char),
      (SignalTest TestSize QUIT envs menuKeys).calls
        = expectedSignalCalls TestSize envs (chosenTests menuKeys) 0
            (List.replicate 16384 0) QUIT ∧
      (SignalTest TestSize QUIT envs menuKeys).calls.map (fun c => (c.choice, c.mode))
        = (chosenTests menuKeys).map (fun ch => (ch, SignalTest.testMode ch)) ∧
      (∀ (k : Nat) (c : SignalCall),
        (SignalTest TestSize QUIT envs menuKeys).calls[k]? = some c →
        (chosenTests menuKeys)[k]? = some c.choice ∧
        (c.choice = '1' ∨ c.choice = '2' ∨ c.choice = '3' ∨ c.choice = '4' ∨
          c.choice = '5') ∧
        c.mode = SignalTest.testMode c.choice ∧
        (c.mode &&& PAT_VERIFY ≠ 0 ↔ c.choice = '5') ∧
        c.displayStr = "Test ".push c.choice ∧
        (k = 0 → c.writeBlock = SignalTest.fill c.choice (List.replicate 16384 0) ∧
          c.result = PatternTest (envs 0) TestSize QUIT c.writeBlock c.displayStr c.mode) ∧
        (∀ j p, k = j + 1 → (SignalTest TestSize QUIT envs menuKeys).calls[j]? = some p →
          c.writeBlock = SignalTest.fill c.choice p.writeBlock ∧
          c.result = PatternTest (envs k) TestSize p.result.QUIT c.writeBlock
            c.displayStr c.mode) ∧
        ((envs k).openOk = true → c.choice ≠ '5' → c.result.ret = 0))) ∧
    (∀ (envs : Nat → PatternIO) (ch : Char),
      ch = '1' ∨ ch = '2' ∨ ch = '3' ∨ ch = '4' ∨ ch = '5' →
      (SignalTest TestSize QUIT envs [ch]).calls.map (fun c => c.mode)
        = [SignalTest.testMode ch]) := by
  have hcalls : ∀ (envs : Nat → PatternIO) (menuKeys : List Char),
      (SignalTest TestSize QUIT envs menuKeys).calls
        = expectedSignalCalls TestSize envs (chosenTests menuKeys) 0
            (List.replicate 16384 0) QUIT := by
    intro envs menuKeys
    unfold SignalTest
    rw [SignalTest.menu_eq]
    rfl
  have hmodes : ∀ (envs : Nat → PatternIO) (menuKeys : List Char),
      (SignalTest TestSize QUIT envs menuKeys).calls.map (fun c => (c.choice, c.mode))
        = (chosenTests menuKeys).map (fun ch => (ch, SignalTest.testMode ch)) := by
    intro envs menuKeys
    rw [hcalls, expectedSignalCalls_modes]
  refine ⟨PatternTest_no_verify env TestSize QUIT wb displayStr mode hopen hv,
    testMode_verify, ?_, ?_, ?_⟩
  · intro ch hch
    have h5 : ch ≠ '5' := by
      rcases hch with rfl | rfl | rfl | rfl <;> decide
    by_contra hne
    exact h5 ((testMode_verify ch).1 hne)
  · intro envs menuKeys
    refine ⟨hcalls envs menuKeys, hmodes envs menuKeys, ?_⟩
    intro k c hk
    rw [hcalls] at hk ⊢
    obtain ⟨h1, h2, h3, h4, h5⟩ := expectedSignalCalls_getElem? TestSize envs _ 0 _ QUIT k c hk
    have hmem : c.choice ∈ chosenTests menuKeys := by
      obtain ⟨hlt, heq⟩ := List.getElem?_eq_some.1 h1
      rw [← heq]
      exact List.getElem_mem hlt
    have hres : ∃ q, c.result = PatternTest (envs k) TestSize q c.writeBlock c.displayStr
        c.mode := by
      cases k with
      | zero => exact ⟨QUIT, (h4 rfl).2⟩
      | succ j =>
        have hj : j < (expectedSignalCalls TestSize envs (chosenTests menuKeys) 0
            (List.replicate 16384 0) QUIT).length := by
          have := (List.getElem?_eq_some.1 hk).1
          omega
        have hp := List.getElem?_eq_getElem hj
        have := (h5 j _ rfl hp).2
        rw [Nat.zero_add] at this
        exact ⟨_, this⟩
    refine ⟨h1, chosenTests_mem menuKeys c.choice hmem, h2, ?_, h3, h4, ?_, ?_⟩
    · rw [h2]; exact testMode_verify c.choice
    · intro j p hj hp
      have := h5 j p hj hp
      rw [Nat.zero_add] at this
      exact this
    · intro hok hne
      obtain ⟨q, hq⟩ := hres
      rw [hq]
      apply PatternTest_no_verify _ _ _ _ _ _ hok
      rw [h2]
      by_contra hnz
      exact hne ((testMode_verify c.choice).1 hnz)
  · intro envs ch hch
    have hct : chosenTests [ch] = [ch] := by
      rcases hch with rfl | rfl | rfl | rfl | rfl <;> decide
    have := hmodes envs [ch]
    rw [hct] at this
    have h2 := congrArg (List.map Prod.snd) this
    simpa [List.map_map] using h2

/-- Witness for C12: test 1 of `SignalTest` (mode without `PAT_VERIFY`) on a disk
that returns zeros for every block. -/
theorem PatternTest_verify_gate_witness :
    (PatternTest zeroDisk 131072 false blockAA55 "Test 1" (SignalTest.testMode '1')).ret = 0 :=
  (PatternTest_verify_gate zeroDisk 131072 false blockAA55 "Test 1" (SignalTest.testMode '1')
    rfl (by decide)).1


/-! ### PatternTest: the range of the result -/

theorem compareStep_totalErrors_cases (wb : List Nat) (mode : Nat) (d n : Int)
    (block : List Nat) (io : Nat) (st : CompareState) :
    (PatternTest.compareStep wb mode d n block io st).totalErrors = st.totalErrors ∨
    (PatternTest.compareStep wb mode d n block io st).totalErrors
      = toInt32 (st.totalErrors + 1) := by
  unfold PatternTest.compareStep
  simp only []
  split_ifs <;> first | exact Or.inl rfl | exact Or.inr rfl

/-- The tally grows by at most one per block of the range. -/
theorem compareLoop_totalErrors_range (wb : List Nat) (mode : Nat) (d n : Int)
    (rb : Nat → List Nat) (rk : Nat → Option Char) :
    ∀ (fuel io : Nat) (st : CompareState), 0 ≤ st.totalErrors →
      st.totalErrors + (fuel : Int) < 2 ^ 31 →
      st.totalErrors ≤ (PatternTest.compareLoop wb mode d n rb rk fuel io st).totalErrors ∧
      (PatternTest.compareLoop wb mode d n rb rk fuel io st).totalErrors
        ≤ st.totalErrors + (fuel : Int) := by
  intro fuel
  induction fuel with
  | zero =>
    intro io st _ _
    simp only [PatternTest.compareLoop]
    exact ⟨le_refl _, by push_cast; omega⟩
  | succ f ih =>
    intro io st h0 h1
    have hstep : st.totalErrors ≤ (PatternTest.compareStep wb mode d n (rb io) io st).totalErrors ∧
        (PatternTest.compareStep wb mode d n (rb io) io st).totalErrors ≤ st.totalErrors + 1 := by
      rcases compareStep_totalErrors_cases wb mode d n (rb io) io st with h | h
      · rw [h]; omega
      · rw [h]; unfold toInt32; omega
    have hrec := ih (io + 1) (PatternTest.compareStep wb mode d n (rb io) io st)
      (by omega) (by push_cast at h1; omega)
    cases hk : rk io with
    | none =>
      simp only [PatternTest.compareLoop, hk]
      push_cast; omega
    | some ch =>
      simp only [PatternTest.compareLoop, hk]
      split
      · show st.totalErrors ≤ (PatternTest.compareStep wb mode d n (rb io) io st).totalErrors ∧
          (PatternTest.compareStep wb mode d n (rb io) io st).totalErrors ≤ _
        push_cast; omega
      · push_cast; omega

/-- The write loop leaves `readmax` at its initial value, at 0, or at the number of
a block it wrote. -/
theorem writeLoop_readmax (wk : Nat → Option Char) :
    ∀ (fuel io : Nat) (st : WriteState),
      (PatternTest.writeLoop wk fuel io st).readmax = st.readmax ∨
      (PatternTest.writeLoop wk fuel io st).readmax = 0 ∨
      ∃ j : Nat, io ≤ j ∧ j < io + fuel ∧ (PatternTest.writeLoop wk fuel io st).readmax = (j : Int) := by
  intro fuel
  induction fuel with
  | zero => intro io st; exact Or.inl rfl
  | succ f ih =>
    intro io st
    have hrec := ih (io + 1) { st with written := st.written + 1 }
    cases hk : wk io with
    | none =>
      simp only [PatternTest.writeLoop, hk]
      rcases hrec with h | h | ⟨j, h1, h2, h3⟩
      · exact Or.inl h
      · exact Or.inr (Or.inl h)
      · exact Or.inr (Or.inr ⟨j, by omega, by omega, h3⟩)
    | some ch =>
      simp only [PatternTest.writeLoop, hk]
      split_ifs
      · exact Or.inr (Or.inr ⟨io, le_refl _, by omega, rfl⟩)
      · exact Or.inr (Or.inl rfl)
      · rcases hrec with h | h | ⟨j, h1, h2, h3⟩
        · exact Or.inl h
        · exact Or.inr (Or.inl h)
        · exact Or.inr (Or.inr ⟨j, by omega, by omega, h3⟩)

/-- The block count of a test file whose size is a `long`. -/
theorem max_blocks_range (TestSize : Int) (hlo : -(2 ^ 31) ≤ TestSize) (hhi : TestSize < 2 ^ 31) :
    toInt32 (Int.tdiv TestSize (32 * 1024)) ≤ 65535 ∧
    (0 ≤ TestSize → toInt32 (Int.tdiv TestSize (32 * 1024)) = TestSize / 32768) := by
  have e : (32 : Int) * 1024 = 32768 := by norm_num
  rw [e]
  by_cases h : 0 ≤ TestSize
  · rw [Int.tdiv_eq_ediv h (by norm_num)]
    unfold toInt32
    constructor
    · omega
    · intro _; omega
  · have hneg : Int.tdiv TestSize 32768 = -((-TestSize) / 32768) := by
      have := Int.neg_tdiv (-TestSize) 32768
      rw [neg_neg] at this
      rw [this, Int.tdiv_eq_ediv (by omega) (by norm_num)]
    rw [hneg]
    unfold toInt32
    constructor
    · omega
    · intro h2; omega

/-- The result of `PatternTest` is -1 when the file cannot be opened, and otherwise
lies between 0 and the number of blocks of the file. -/
theorem PatternTest_ret_range (env : PatternIO) (TestSize : Int) (QUIT : Bool)
    (wb : List Nat) (displayStr : String) (mode : Nat)
    (hlo : -(2 ^ 31) ≤ TestSize) (hhi : TestSize < 2 ^ 31) :
    (env.openOk = false → (PatternTest env TestSize QUIT wb displayStr mode).ret = -1 ∧
      (PatternTest env TestSize QUIT wb displayStr mode).QUIT = QUIT) ∧
    (env.openOk = true → 0 ≤ (PatternTest env TestSize QUIT wb displayStr mode).ret) ∧
    (PatternTest env TestSize QUIT wb displayStr mode).ret ≤ 65535 := by
  have hmax := (max_blocks_range TestSize hlo hhi).1
  cases hopen : env.openOk with
  | false =>
    have : PatternTest env TestSize QUIT wb displayStr mode
        = { ret := -1, QUIT := QUIT, written := 0, read := 0 } := by
      unfold PatternTest; simp [hopen]
    rw [this]
    exact ⟨fun _ => ⟨rfl, rfl⟩, fun h => Bool.noConfusion h, by norm_num⟩
  | true =>
    rw [PatternTest_of_writeLoop env TestSize QUIT wb displayStr mode hopen _ rfl]
    have hrm := writeLoop_readmax env.writeKey
      (toInt32 (Int.tdiv TestSize (32 * 1024))).toNat 1
      { readmax := toInt32 (Int.tdiv TestSize (32 * 1024)), QUIT := QUIT, written := 0 }
    generalize PatternTest.writeLoop env.writeKey
      (toInt32 (Int.tdiv TestSize (32 * 1024))).toNat 1
      { readmax := toInt32 (Int.tdiv TestSize (32 * 1024)), QUIT := QUIT, written := 0 } = w
      at hrm ⊢
    have hle : w.readmax ≤ 65535 := by
      rcases hrm with h | h | ⟨j, h1, h2, h3⟩
      · rw [h]; exact hmax
      · rw [h]; norm_num
      · rw [h3]; omega
    refine ⟨fun h => Bool.noConfusion h, fun _ => ?_, ?_⟩
    · split
      · exact (compareLoop_totalErrors_range wb mode _ _ env.readBack env.readKey
          w.readmax.toNat 1 _ (le_refl _) (by simp only []; omega)).1
      · exact le_refl _
    · split
      · have := (compareLoop_totalErrors_range wb mode (PatternTest.dots env.sizeBits displayStr)
          w.readmax env.readBack env.readKey
          w.readmax.toNat 1
          { errCount := 0, totalErrors := 0, currentDot := 0, QUIT := w.QUIT, read := 0 }
          (le_refl _) (by simp only []; omega)).2
        simp only [] at this ⊢
        omega
      · norm_num


/-! ### MediaTest -/

theorem mediaName_eq : ∀ k, k < 10 →
    (if PATTERN_CYCLE.getD k 0 = 1 then PATTERN_NAMES.getD k ""
     else "Pattern " ++ InHex (PATTERNS.getD k 0)) = mediaNames.getD k "" := by
  decide

theorem media_fill (k : Nat) (blk : List Nat) (hlen : blk.length = 16384) :
    (if PATTERN_CYCLE.getD k 0 = 1 then fillWalking (PATTERNS.getD k 0) blk
      else fillStatic (PATTERNS.getD k 0) blk).length = 16384 ∧
    ∀ i, i < 16384 →
      (if PATTERN_CYCLE.getD k 0 = 1 then fillWalking (PATTERNS.getD k 0) blk
        else fillStatic (PATTERNS.getD k 0) blk).getD i 0
      = if PATTERN_CYCLE.getD k 0 = 1 then walkingWord (PATTERNS.getD k 0) i
        else PATTERNS.getD k 0 := by
  split
  · refine ⟨by rw [fillWalking, fillLoop_length, hlen], ?_⟩
    intro i hi
    rw [fillWalking, fillLoop_getD _ _ _ _ _ (by omega), if_pos (by omega)]
  · refine ⟨by rw [fillStatic, fillLoop_length, hlen], ?_⟩
    intro i hi
    rw [fillStatic, fillLoop_getD _ _ _ _ _ (by omega), if_pos (by omega)]


/-- One turn of the loop of `MediaTest` with `QUIT` clear on entry: the RAM check
passes, `PatternTest` runs once, and the loop goes on unless `QUIT` was set. -/
theorem MediaTest.loop_succ (TestSize : Int) (envs : Nat → PatternIO) (f t : Nat)
    (st : MediaState) (hq : st.QUIT = false) (ht10 : t ≤ 10)
    (wb : List Nat) (r : PatternResult) (c : MediaCall) (st1 : MediaState)
    (hwb : wb = if PATTERN_CYCLE.getD (t - 1) 0 = 1
      then fillWalking (PATTERNS.getD (t - 1) 0) st.writeBlock
      else fillStatic (PATTERNS.getD (t - 1) 0) st.writeBlock)
    (hr : r = PatternTest (envs t) TestSize false wb (mediaNames.getD (t - 1) "")
      (PAT_READ ||| PAT_WRITE ||| PAT_VERIFY))
    (hc : c = { test := t, pattern := PATTERNS.getD (t - 1) 0,
                cycle := PATTERN_CYCLE.getD (t - 1) 0, writeBlock := wb,
                displayStr := mediaNames.getD (t - 1) "",
                mode := PAT_READ ||| PAT_WRITE ||| PAT_VERIFY, result := r })
    (hst1 : st1 = { writeBlock := wb,
                    errors := if r.ret > 0 then toInt32 (st.errors + r.ret) else st.errors,
                    QUIT := r.QUIT, calls := st.calls ++ [c], ramError := false }) :
    MediaTest.loop TestSize envs (f + 1) t st =
      if r.QUIT = true then st1 else MediaTest.loop TestSize envs f (t + 1) st1 := by
  have hname := mediaName_eq (t - 1) (by omega)
  subst hst1 hc hr hwb
  rw [MediaTest.loop]
  simp only [hq, hname, CompareWords_self, ne_eq, not_true_eq_false, if_false]

theorem MediaTest.loop_spec (TestSize : Int) (envs : Nat → PatternIO)
    (hlo : -(2 ^ 31) ≤ TestSize) (hhi : TestSize < 2 ^ 31) :
    ∀ (fuel t : Nat) (st : MediaState), 1 ≤ t → t + fuel = 11 →
      st.calls.length = t - 1 → st.QUIT = false → st.ramError = false →
      st.writeBlock.length = 16384 →
      (∀ k c, st.calls[k]? = some c → mediaCallSpec TestSize envs k c ∧ c.result.QUIT = false) →
      st.errors = (st.calls.map countedErrors).sum → 0 ≤ st.errors →
      st.errors ≤ 65535 * ((t : Int) - 1) →
      (MediaTest.loop TestSize envs fuel t st).ramError = false ∧
      (1 ≤ fuel → t ≤ (MediaTest.loop TestSize envs fuel t st).calls.length) ∧
      (MediaTest.loop TestSize envs fuel t st).calls.length ≤ 10 ∧
      (∀ k c, (MediaTest.loop TestSize envs fuel t st).calls[k]? = some c →
        mediaCallSpec TestSize envs k c ∧
        (k + 1 < (MediaTest.loop TestSize envs fuel t st).calls.length →
          c.result.QUIT = false) ∧
        (k + 1 = (MediaTest.loop TestSize envs fuel t st).calls.length →
          (MediaTest.loop TestSize envs fuel t st).QUIT = c.result.QUIT)) ∧
      ((MediaTest.loop TestSize envs fuel t st).calls.length < 10 →
        (MediaTest.loop TestSize envs fuel t st).QUIT = true) ∧
      (MediaTest.loop TestSize envs fuel t st).errors
        = ((MediaTest.loop TestSize envs fuel t st).calls.map countedErrors).sum ∧
      0 ≤ (MediaTest.loop TestSize envs fuel t st).errors := by
  intro fuel
  induction fuel with
  | zero =>
    intro t st ht hsum hlen hq hram hwb hcalls herr h0 hbound
    simp only [MediaTest.loop]
    refine ⟨hram, fun h => by omega, by omega, ?_, fun h => by omega, herr, h0⟩
    intro k c hk
    obtain ⟨h1, h2⟩ := hcalls k c hk
    exact ⟨h1, fun _ => h2, fun _ => by rw [hq, h2]⟩
  | succ f ih =>
    intro t st ht hsum hlen hq hram hwb hcalls herr h0 hbound
    have ht10 : t ≤ 10 := by omega
    have ht1 : t - 1 + 1 = t := by omega
    obtain ⟨hfl, hfg⟩ := media_fill (t - 1) st.writeBlock hwb
    -- name the write block, the result, the call and the next state
    obtain ⟨wb, hwbdef⟩ : ∃ wb, wb = if PATTERN_CYCLE.getD (t - 1) 0 = 1
        then fillWalking (PATTERNS.getD (t - 1) 0) st.writeBlock
        else fillStatic (PATTERNS.getD (t - 1) 0) st.writeBlock := ⟨_, rfl⟩
    rw [← hwbdef] at hfl hfg
    obtain ⟨r, hr⟩ : ∃ r, r = PatternTest (envs t) TestSize false wb (mediaNames.getD (t - 1) "")
        (PAT_READ ||| PAT_WRITE ||| PAT_VERIFY) := ⟨_, rfl⟩
    obtain ⟨c0, hc0⟩ : ∃ c : MediaCall, c = MediaCall.mk t (PATTERNS.getD (t - 1) 0)
        (PATTERN_CYCLE.getD (t - 1) 0) wb (mediaNames.getD (t - 1) "")
        (PAT_READ ||| PAT_WRITE ||| PAT_VERIFY) r := ⟨_, rfl⟩
    obtain ⟨st1, hst1⟩ : ∃ s : MediaState, s = MediaState.mk wb
        (if r.ret > 0 then toInt32 (st.errors + r.ret) else st.errors)
        r.QUIT (st.calls ++ [c0]) false := ⟨_, rfl⟩
    rw [MediaTest.loop_succ TestSize envs f t st hq ht10 wb r c0 st1 hwbdef hr hc0 hst1]
    -- facts about the new call and the next state
    have hspec : mediaCallSpec TestSize envs (t - 1) c0 := by
      rw [hc0]
      refine ⟨ht1.symm, rfl, rfl, rfl, rfl, hfl, hfg, ?_⟩
      simp only [ht1]
      exact hr
    have hres : c0.result = r := by rw [hc0]
    have hrange := PatternTest_ret_range (envs t) TestSize false wb (mediaNames.getD (t - 1) "")
      (PAT_READ ||| PAT_WRITE ||| PAT_VERIFY) hlo hhi
    rw [← hr] at hrange
    have hr65 : r.ret ≤ 65535 := hrange.2.2
    have s_wb : st1.writeBlock = wb := by rw [hst1]
    have s_q : st1.QUIT = r.QUIT := by rw [hst1]
    have s_ram : st1.ramError = false := by rw [hst1]
    have s_calls : st1.calls = st.calls ++ [c0] := by rw [hst1]
    have s_len : st1.calls.length = t := by
      rw [s_calls, List.length_append, hlen]; simp; omega
    have s_err : st1.errors = st.errors + countedErrors c0 := by
      rw [hst1]
      simp only [countedErrors, hres]
      split
      · unfold toInt32; omega
      · omega
    have s_sum : st1.errors = (st1.calls.map countedErrors).sum := by
      rw [s_err, s_calls, List.map_append, List.sum_append, herr]
      simp
    have c_rng : 0 ≤ countedErrors c0 ∧ countedErrors c0 ≤ 65535 := by
      simp only [countedErrors, hres]
      split <;> omega
    have s_get : ∀ k c, st1.calls[k]? = some c →
        (k < t - 1 ∧ st.calls[k]? = some c) ∨ (k = t - 1 ∧ c = c0) := by
      intro k c hk
      rw [s_calls] at hk
      by_cases hlt : k < st.calls.length
      · rw [List.getElem?_append_left hlt] at hk
        exact Or.inl ⟨by omega, hk⟩
      · have hk2 : k < (st.calls ++ [c0]).length := by
          by_contra hge
          rw [List.getElem?_eq_none (by omega)] at hk
          exact Option.noConfusion hk
        rw [List.length_append] at hk2
        simp at hk2
        have hke : k = st.calls.length := by omega
        rw [hke, List.getElem?_append_right (le_refl _)] at hk
        simp at hk
        exact Or.inr ⟨by omega, hk.symm⟩
    by_cases hrq : r.QUIT = true
    · rw [if_pos hrq]
      refine ⟨s_ram, fun _ => by omega, by omega, ?_, fun _ => by rw [s_q]; exact hrq,
        s_sum, by rw [s_err]; omega⟩
      intro k c hk
      rcases s_get k c hk with ⟨h1, h2⟩ | ⟨h1, h2⟩
      · obtain ⟨g1, g2⟩ := hcalls k c h2
        exact ⟨g1, fun _ => g2, fun h => by omega⟩
      · subst h2
        rw [h1]
        exact ⟨hspec, fun h => by omega, fun _ => by rw [s_q, hres]⟩
    · rw [if_neg hrq]
      have hrq2 : r.QUIT = false := by
        cases h : r.QUIT
        · rfl
        · exact absurd h hrq
      have := ih (t + 1) st1 (by omega) (by omega) (by rw [s_len]; omega) (by rw [s_q]; exact hrq2)
        s_ram (by rw [s_wb]; exact hfl)
        (by
          intro k c hk
          rcases s_get k c hk with ⟨h1, h2⟩ | ⟨h1, h2⟩
          · exact hcalls k c h2
          · subst h2
            rw [h1]
            exact ⟨hspec, by rw [hres]; exact hrq2⟩)
        s_sum (by rw [s_err]; omega) (by rw [s_err]; push_cast; omega)
      obtain ⟨p1, p2, p3, p4, p5, p6, p7⟩ := this
      refine ⟨p1, fun _ => ?_, p3, p4, p5, p6, p7⟩
      by_cases hf : 1 ≤ f
      · have := p2 hf; omega
      · have hf0 : f = 0 := by omega
        subst hf0
        simp only [MediaTest.loop]
        omega


theorem media_table : ∀ k, k < 10 →
    ([(0x0000, 0), (0xFFFF, 0), (0xFF00, 0), (0xF00F, 0), (0xAA55, 0), (0xA55A, 0),
      (0x18E7, 0), (0xE718, 0), (0x0001, 1), (0xFFFE, 1)] : List (Nat × Nat))[k]?
      = some (PATTERNS.getD k 0, PATTERN_CYCLE.getD k 0) := by
  decide

/-- C13: `MediaTest` clears `QUIT` and runs `PatternTest` once per pattern in the
table order 0x0000, 0xFFFF, 0xFF00, 0xF00F, 0xAA55, 0xA55A, 0x18E7, 0xE718, walking
0x0001, walking 0xFFFE, each on a block filled with the pattern and with mode
`PAT_READ | PAT_WRITE | PAT_VERIFY`; it stops right after the first pattern during
which `QUIT` was set, and runs all 10 when `QUIT` is never set; the reported error
total is the sum of the results of the patterns that ran, a failed open (result
-1) contributing nothing, so the total is never negative. -/
theorem MediaTest_sequence (TestSize : Int) (envs : Nat → PatternIO)
    (hlo : -(2 ^ 31) ≤ TestSize) (hhi : TestSize < 2 ^ 31) :
    (MediaTest TestSize envs).ramError = false ∧
    1 ≤ (MediaTest TestSize envs).calls.length ∧
    (MediaTest TestSize envs).calls.length ≤ 10 ∧
    (MediaTest TestSize envs).calls.map (fun c => (c.pattern, c.cycle))
      = ([(0x0000, 0), (0xFFFF, 0), (0xFF00, 0), (0xF00F, 0), (0xAA55, 0), (0xA55A, 0),
          (0x18E7, 0), (0xE718, 0), (0x0001, 1), (0xFFFE, 1)] : List (Nat × Nat)).take
            (MediaTest TestSize envs).calls.length ∧
    (∀ k c, (MediaTest TestSize envs).calls[k]? = some c →
      mediaCallSpec TestSize envs k c ∧
      (k + 1 < (MediaTest TestSize envs).calls.length → c.result.QUIT = false) ∧
      (k + 1 = (MediaTest TestSize envs).calls.length →
        (MediaTest TestSize envs).QUIT = c.result.QUIT)) ∧
    ((MediaTest TestSize envs).calls.length < 10 → (MediaTest TestSize envs).QUIT = true) ∧
    ((∀ c ∈ (MediaTest TestSize envs).calls, c.result.QUIT = false) →
      (MediaTest TestSize envs).calls.length = 10) ∧
    (MediaTest TestSize envs).errors
      = ((MediaTest TestSize envs).calls.map countedErrors).sum ∧
    (∀ c ∈ (MediaTest TestSize envs).calls,
      (c.result.ret = -1 → countedErrors c = 0) ∧
      ((envs c.test).openOk = false → c.result.ret = -1) ∧
      ((envs c.test).openOk = true → countedErrors c = c.result.ret)) ∧
    0 ≤ (MediaTest TestSize envs).errors := by
  obtain ⟨p1, p2, p3, p4, p5, p6, p7⟩ := MediaTest.loop_spec TestSize envs hlo hhi 10 1
    { writeBlock := List.replicate 16384 0, errors := 0, QUIT := false, calls := [],
      ramError := false }
    (le_refl _) rfl rfl rfl rfl (List.length_replicate _ _)
    (fun k c hk => by simp at hk) rfl (le_refl _) (by norm_num)
  have hM : MediaTest TestSize envs = MediaTest.loop TestSize envs 10 1
    { writeBlock := List.replicate 16384 0, errors := 0, QUIT := false, calls := [],
      ramError := false } := rfl
  rw [← hM] at p1 p2 p3 p4 p5 p6 p7
  have hlen1 := p2 (by norm_num)
  refine ⟨p1, hlen1, p3, ?_, p4, p5, ?_, p6, ?_, p7⟩
  · apply List.ext_getElem?
    intro k
    rw [List.getElem?_map]
    by_cases hk : k < (MediaTest TestSize envs).calls.length
    · rw [List.getElem?_take_of_lt hk, media_table k (by omega)]
      cases hc : (MediaTest TestSize envs).calls[k]? with
      | none =>
        rw [List.getElem?_eq_none_iff] at hc
        omega
      | some c =>
        obtain ⟨⟨_, h2, h3, _⟩, _⟩ := p4 k c hc
        simp only [Option.map_some', h2, h3]
    · rw [List.getElem?_eq_none (by omega), List.getElem?_eq_none (by
        rw [List.length_take]; omega)]
      rfl
  · intro hall
    by_contra hne
    have hlt : (MediaTest TestSize envs).calls.length < 10 := by omega
    have hq := p5 hlt
    have hk : (MediaTest TestSize envs).calls.length - 1 < (MediaTest TestSize envs).calls.length := by
      omega
    have hget := List.getElem?_eq_getElem hk
    obtain ⟨_, _, h3⟩ := p4 _ _ hget
    have := h3 (by omega)
    rw [hq] at this
    have hmem := List.getElem_mem hk
    rw [hall _ hmem] at this
    exact Bool.noConfusion this
  · intro c hc
    obtain ⟨k, hk, hkc⟩ := List.getElem_of_mem hc
    have hget : (MediaTest TestSize envs).calls[k]? = some c := by
      rw [List.getElem?_eq_getElem hk, hkc]
    obtain ⟨⟨ht, _, _, _, _, _, _, hres⟩, _⟩ := p4 k c hget
    have hrange := PatternTest_ret_range (envs (k + 1)) TestSize false c.writeBlock
      c.displayStr (PAT_READ ||| PAT_WRITE ||| PAT_VERIFY) hlo hhi
    rw [← hres, ← ht] at hrange
    refine ⟨?_, fun h => (hrange.1 h).1, ?_⟩
    · intro h
      simp only [countedErrors, h]
      rfl
    · intro h
      have := hrange.2.1 h
      simp only [countedErrors]
      split <;> omega

/-- Witness for C13: a file of 4 blocks on a disk that returns zeros for every
block, nobody at the keyboard. -/
theorem MediaTest_sequence_witness :
    (MediaTest 131072 (fun _ => zeroDisk)).ramError = false ∧
    0 ≤ (MediaTest 131072 (fun _ => zeroDisk)).errors :=
  ⟨(MediaTest_sequence 131072 (fun _ => zeroDisk) (by decide) (by decide)).1,
   (MediaTest_sequence 131072 (fun _ => zeroDisk) (by decide) (by decide)).2.2.2.2.2.2.2.2.2⟩


/-! ### PatternTest: runs of blocks between progress marks -/

theorem blockMismatch_iff (wb block : List Nat) (hlen : wb.length < 2 ^ 31) :
    blockMismatch wb block = true ↔
      CompareWords wb block (toInt32 (wb.length : Int)) ≠ 0 := by
  have hwords : toInt32 (wb.length : Int) = ((wb.length : Nat) : Int) := by
    unfold toInt32; omega
  rw [hwords, ne_eq, CompareWords_eq_zero_iff]
  unfold blockMismatch
  rw [List.any_eq_true]
  constructor
  · rintro ⟨k, hk, hne⟩ hall
    rw [List.mem_range] at hk
    have := hall k hk
    rw [bne_iff_ne] at hne
    exact hne this.symm
  · intro h
    push_neg at h
    obtain ⟨k, hk, hne⟩ := h
    exact ⟨k, List.mem_range.2 hk, by rw [bne_iff_ne]; exact fun h => hne h.symm⟩

theorem runHasMismatch_iff (bad : Nat → Bool) (d N io : Nat) :
    runHasMismatch bad d N io = true ↔
      ∃ b, 1 ≤ b ∧ b ≤ io ∧ bad b = true ∧ ∀ m, b ≤ m → m < io → markEnd d N m = false := by
  unfold runHasMismatch
  rw [List.any_eq_true]
  constructor
  · rintro ⟨i, hi, h⟩
    rw [List.mem_range] at hi
    rw [Bool.and_eq_true, List.all_eq_true] at h
    refine ⟨i + 1, by omega, by omega, h.1, ?_⟩
    intro m h1 h2
    have := h.2 m (List.mem_range.2 h2)
    rw [Bool.or_eq_true, decide_eq_true_eq] at this
    rcases this with h3 | h3
    · omega
    · simpa using h3
  · rintro ⟨b, h1, h2, h3, h4⟩
    refine ⟨b - 1, List.mem_range.2 (by omega), ?_⟩
    have hb : b - 1 + 1 = b := by omega
    rw [hb, Bool.and_eq_true, List.all_eq_true]
    refine ⟨h3, ?_⟩
    intro m hm
    rw [List.mem_range] at hm
    rw [Bool.or_eq_true, decide_eq_true_eq]
    by_cases hlt : m < b
    · exact Or.inl hlt
    · exact Or.inr (by rw [h4 m (by omega) hm]; rfl)

theorem mismatchedRunsUpTo_succ (bad : Nat → Bool) (d N k : Nat) :
    mismatchedRunsUpTo bad d N (k + 1) =
      mismatchedRunsUpTo bad d N k +
        if (markEnd d N (k + 1) && runHasMismatch bad d N (k + 1)) = true then 1 else 0 := by
  unfold mismatchedRunsUpTo
  rw [List.range_succ, List.filter_append, List.length_append]
  congr 1
  by_cases h : (markEnd d N (k + 1) && runHasMismatch bad d N (k + 1)) = true
  · simp [List.filter, h]
  · simp [List.filter, h]

/-- The progress index of the compare loop advances at block `io` exactly when
block `io` ends a run. -/
theorem markEnd_iff (d N io : Nat) (hd1 : 1 ≤ d) (hd2 : d ≤ 32768) (hN2 : N < 65536)
    (hio1 : 1 ≤ io) (hio : io ≤ N) :
    Int.tdiv (toInt32 ((io : Int) * (d : Int))) (N : Int)
        > Int.tdiv (toInt32 (((io - 1 : Nat) : Int) * (d : Int))) (N : Int) ↔
      markEnd d N io = true := by
  rw [next_eq d N io (by omega) (by omega) hN2 hio,
    next_eq d N (io - 1) (by omega) (by omega) hN2 (by omega)]
  unfold markEnd
  rw [decide_eq_true_eq, gt_iff_lt]
  constructor
  · intro h
    have : (((io - 1) * d / N : Nat) : Int) < ((io * d / N : Nat) : Int) := by
      push_cast
      exact h
    exact_mod_cast this
  · intro h
    have : (((io - 1) * d / N : Nat) : Int) < ((io * d / N : Nat) : Int) := by
      exact_mod_cast h
    push_cast at this
    exact this


theorem run_iff_pending (bad : Nat → Bool) (d N io : Nat) (hio : 1 ≤ io) :
    runHasMismatch bad d N io = true ↔
      ((∃ b, 1 ≤ b ∧ b < io ∧ bad b = true ∧ ∀ m, b ≤ m → m < io → markEnd d N m = false) ∨
        bad io = true) := by
  rw [runHasMismatch_iff]
  constructor
  · rintro ⟨b, h1, h2, h3, h4⟩
    by_cases hb : b = io
    · subst hb; exact Or.inr h3
    · exact Or.inl ⟨b, h1, by omega, h3, h4⟩
  · rintro (⟨b, h1, h2, h3, h4⟩ | h)
    · exact ⟨b, h1, by omega, h3, h4⟩
    · exact ⟨io, hio, le_refl _, h, fun m h1 h2 => by omega⟩

theorem pending_succ (bad : Nat → Bool) (d N io : Nat) (hio : 1 ≤ io) :
    (∃ b, 1 ≤ b ∧ b < io + 1 ∧ bad b = true ∧
        ∀ m, b ≤ m → m < io + 1 → markEnd d N m = false) ↔
      (markEnd d N io = false ∧ runHasMismatch bad d N io = true) := by
  rw [runHasMismatch_iff]
  constructor
  · rintro ⟨b, h1, h2, h3, h4⟩
    exact ⟨h4 io (by omega) (by omega), b, h1, by omega, h3,
      fun m h5 h6 => h4 m h5 (by omega)⟩
  · rintro ⟨hm, b, h1, h2, h3, h4⟩
    refine ⟨b, h1, by omega, h3, ?_⟩
    intro m h5 h6
    by_cases hmio : m = io
    · subst hmio; exact hm
    · exact h4 m h5 (by omega)

theorem mismatchedRunsUpTo_le (bad : Nat → Bool) (d N k : Nat) :
    mismatchedRunsUpTo bad d N k ≤ k := by
  unfold mismatchedRunsUpTo
  calc _ ≤ (List.range k).length := List.length_filter_le _ _
    _ = k := List.length_range k

/-- One block of the compare loop under the invariant: the pending error count is
non-zero exactly when the open run holds a mismatching block, and the tally is the
number of closed runs that held one. -/
theorem compareStep_marked_runs (wb : List Nat) (mode : Nat) (hv : mode &&& PAT_VERIFY ≠ 0)
    (d N : Nat) (hd1 : 1 ≤ d) (hd2 : d ≤ 32768) (hN1 : 1 ≤ N) (hN2 : N < 65536)
    (hL : wb.length ≤ 32768) (rb : Nat → List Nat) (io : Nat) (st : CompareState)
    (hio1 : 1 ≤ io) (hio : io ≤ N)
    (hcd : st.currentDot = Int.tdiv (toInt32 (((io - 1 : Nat) : Int) * (d : Int))) (N : Int))
    (hpend : st.errCount ≠ 0 ↔ ∃ b, 1 ≤ b ∧ b < io ∧ blockMismatch wb (rb b) = true ∧
      ∀ m, b ≤ m → m < io → markEnd d N m = false)
    (he0 : 0 ≤ st.errCount) (he1 : st.errCount ≤ ((io : Int) - 1) * 32768)
    (htot : st.totalErrors
      = (mismatchedRunsUpTo (fun b => blockMismatch wb (rb b)) d N (io - 1) : Nat)) :
    (PatternTest.compareStep wb mode d N (rb io) io st).currentDot
      = Int.tdiv (toInt32 (((io + 1 - 1 : Nat) : Int) * (d : Int))) (N : Int) ∧
    ((PatternTest.compareStep wb mode d N (rb io) io st).errCount ≠ 0 ↔
      ∃ b, 1 ≤ b ∧ b < io + 1 ∧ blockMismatch wb (rb b) = true ∧
        ∀ m, b ≤ m → m < io + 1 → markEnd d N m = false) ∧
    0 ≤ (PatternTest.compareStep wb mode d N (rb io) io st).errCount ∧
    (PatternTest.compareStep wb mode d N (rb io) io st).errCount
      ≤ (((io + 1 : Nat) : Int) - 1) * 32768 ∧
    (PatternTest.compareStep wb mode d N (rb io) io st).totalErrors
      = (mismatchedRunsUpTo (fun b => blockMismatch wb (rb b)) d N (io + 1 - 1) : Nat) := by
  have hlen : wb.length < 2 ^ 31 := by omega
  have hwords : toInt32 (wb.length : Int) = ((wb.length : Nat) : Int) := by
    unfold toInt32; omega
  have hbad := blockMismatch_iff wb (rb io) hlen
  have hrng : 0 ≤ CompareWords wb (rb io) (toInt32 (wb.length : Int)) ∧
      CompareWords wb (rb io) (toInt32 (wb.length : Int)) ≤ ((wb.length : Nat) : Int) := by
    rw [hwords]; exact CompareWords_range wb (rb io) wb.length
  clear hwords
  have hmark := markEnd_iff d N io hd1 hd2 hN2 hio1 hio
  rw [← hcd] at hmark
  have hmono := next_mono d N (io - 1) (by omega) (by omega) hN1 hN2 (by omega)
  have hio' : io - 1 + 1 = io := by omega
  rw [hio', ← hcd] at hmono
  have hrun := run_iff_pending (fun b => blockMismatch wb (rb b)) d N io hio1
  have hps := pending_succ (fun b => blockMismatch wb (rb b)) d N io hio1
  have hsucc := mismatchedRunsUpTo_succ (fun b => blockMismatch wb (rb b)) d N (io - 1)
  rw [hio'] at hsucc
  have hcnt := mismatchedRunsUpTo_le (fun b => blockMismatch wb (rb b)) d N (io - 1)
  rw [compareStep_currentDot, compareStep_errCount wb mode hv,
    compareStep_totalErrors wb mode hv, Nat.add_sub_cancel, hps, hsucc]
  -- the word comparison of this block, as a number
  generalize CompareWords wb (rb io) (toInt32 (wb.length : Int)) = cw at hbad hrng ⊢
  generalize Int.tdiv (toInt32 ((io : Int) * (d : Int))) (N : Int) = T at hmark hmono ⊢
  generalize mismatchedRunsUpTo (fun b => blockMismatch wb (rb b)) d N (io - 1) = cnt
    at htot hcnt ⊢
  clear hcd hsucc
  have e1 : toInt32 (st.errCount + cw) = st.errCount + cw := by
    unfold toInt32; omega
  rw [e1]
  have hnz : st.errCount + cw ≠ 0 ↔
      runHasMismatch (fun b => blockMismatch wb (rb b)) d N io = true := by
    rw [hrun, ← hpend]
    show _ ↔ (st.errCount ≠ 0 ∨ blockMismatch wb (rb io) = true)
    rw [hbad]
    constructor
    · intro h
      by_cases h0 : st.errCount = 0
      · right; intro hc; apply h; omega
      · left; exact h0
    · rintro (h | h) <;> omega
  by_cases hT : T > st.currentDot
  · have hm : markEnd d N io = true := hmark.1 hT
    rw [if_pos hT, if_pos hT]
    refine ⟨rfl, ?_, le_refl _, by push_cast; omega, ?_⟩
    · rw [hm]; simp
    · by_cases hr : runHasMismatch (fun b => blockMismatch wb (rb b)) d N io = true
      · rw [if_pos ⟨hT, hnz.2 hr⟩, hm, hr, htot]
        simp only [Bool.and_self, if_true]
        unfold toInt32
        push_cast
        omega
      · rw [if_neg (fun h => hr (hnz.1 h.2)), htot]
        simp [hr]
  · have hm : markEnd d N io = false := by
      cases h : markEnd d N io
      · rfl
      · exact absurd (hmark.2 h) hT
    rw [if_neg hT, if_neg hT, if_neg (fun h => hT h.1), hm]
    refine ⟨by omega, ?_, by omega, by push_cast; omega, ?_⟩
    · rw [hnz]; simp
    · rw [htot]; simp


/-- Without a quit key, the compare loop over blocks `1..N` returns the number of
runs that contain a mismatching block. -/
theorem compareLoop_marked_runs (wb : List Nat) (mode : Nat) (hv : mode &&& PAT_VERIFY ≠ 0)
    (d N : Nat) (hd1 : 1 ≤ d) (hd2 : d ≤ 32768) (hN1 : 1 ≤ N) (hN2 : N < 65536)
    (hL : wb.length ≤ 32768) (rb : Nat → List Nat) (rk : Nat → Option Char)
    (hk : ∀ io, noQuit (rk io)) :
    ∀ (fuel io : Nat) (st : CompareState), 1 ≤ io → io + fuel = N + 1 →
      st.currentDot = Int.tdiv (toInt32 (((io - 1 : Nat) : Int) * (d : Int))) (N : Int) →
      (st.errCount ≠ 0 ↔ ∃ b, 1 ≤ b ∧ b < io ∧ blockMismatch wb (rb b) = true ∧
        ∀ m, b ≤ m → m < io → markEnd d N m = false) →
      0 ≤ st.errCount → st.errCount ≤ ((io : Int) - 1) * 32768 →
      st.totalErrors
        = (mismatchedRunsUpTo (fun b => blockMismatch wb (rb b)) d N (io - 1) : Nat) →
      (PatternTest.compareLoop wb mode d N rb rk fuel io st).totalErrors
        = (mismatchedRuns (fun b => blockMismatch wb (rb b)) d N : Nat) := by
  intro fuel
  induction fuel with
  | zero =>
    intro io st h1 h2 _ _ _ _ htot
    have : io - 1 = N := by omega
    rw [this] at htot
    simp only [PatternTest.compareLoop, mismatchedRuns, htot]
  | succ f ih =>
    intro io st h1 h2 hcd hpend he0 he1 htot
    rw [compareLoop_succ_noQuit wb mode d N rb rk f io st (hk io)]
    obtain ⟨s1, s2, s3, s4, s5⟩ := compareStep_marked_runs wb mode hv d N hd1 hd2 hN1 hN2 hL rb
      io st h1 (by omega) hcd hpend he0 he1 htot
    exact ih (io + 1) _ (by omega) (by omega) s1 s2 s3 s4 s5

/-! ### Properties of the number of mismatched runs -/

theorem markEnd_last (d N : Nat) (hd1 : 1 ≤ d) (hN1 : 1 ≤ N) : markEnd d N N = true := by
  unfold markEnd
  rw [decide_eq_true_eq, Nat.mul_div_cancel_left d (by omega), Nat.div_lt_iff_lt_mul (by omega)]
  have : N - 1 < N := by omega
  calc (N - 1) * d < N * d := Nat.mul_lt_mul_of_pos_right this (by omega)
    _ = d * N := Nat.mul_comm _ _

theorem markEnd_all (d N io : Nat) (hNd : N ≤ d) (hio1 : 1 ≤ io) (hN1 : 1 ≤ N) :
    markEnd d N io = true := by
  unfold markEnd
  rw [decide_eq_true_eq]
  have e : io * d = (io - 1) * d + d := by
    have : io = (io - 1) + 1 := by omega
    conv_lhs => rw [this, Nat.add_mul, Nat.one_mul]
  have h1 : ((io - 1) * d + N) / N = (io - 1) * d / N + 1 := Nat.add_div_right _ (by omega)
  have h2 : ((io - 1) * d + N) / N ≤ io * d / N := by
    rw [e]; exact Nat.div_le_div_right (by omega)
  omega

/-- A mismatching block among `1..N` puts at least one run into the count. -/
theorem mismatchedRuns_pos (bad : Nat → Bool) (d N : Nat) (hd1 : 1 ≤ d) (hN1 : 1 ≤ N)
    (h : ∃ io, 1 ≤ io ∧ io ≤ N ∧ bad io = true) : 1 ≤ mismatchedRuns bad d N := by
  obtain ⟨b, hb1, hbN, hbad⟩ := h
  have hex : ∃ m, b ≤ m ∧ markEnd d N m = true := ⟨N, hbN, markEnd_last d N hd1 hN1⟩
  classical
  obtain ⟨he1, he2⟩ := Nat.find_spec hex
  have hmin : ∀ m, b ≤ m → m < Nat.find hex → markEnd d N m = false := by
    intro m h1 h2
    cases hm : markEnd d N m
    · rfl
    · exact absurd ⟨h1, hm⟩ (Nat.find_min hex h2)
  have heN : Nat.find hex ≤ N := Nat.find_min' hex ⟨hbN, markEnd_last d N hd1 hN1⟩
  generalize Nat.find hex = e at he1 he2 hmin heN
  have hrun : runHasMismatch bad d N e = true :=
    (runHasMismatch_iff bad d N e).2 ⟨b, hb1, he1, hbad, hmin⟩
  have hmem : e - 1 ∈ (List.range N).filter (fun i =>
      markEnd d N (i + 1) && runHasMismatch bad d N (i + 1)) := by
    rw [List.mem_filter, List.mem_range]
    have he : e - 1 + 1 = e := by omega
    refine ⟨by omega, ?_⟩
    rw [he, he2, hrun]
    rfl
  unfold mismatchedRuns mismatchedRunsUpTo
  exact List.length_pos_of_mem hmem

theorem mismatchedRunsUpTo_le_marks (bad : Nat → Bool) (d N : Nat) :
    ∀ k, mismatchedRunsUpTo bad d N k ≤ k * d / N := by
  intro k
  induction k with
  | zero => simp [mismatchedRunsUpTo]
  | succ k ih =>
    rw [mismatchedRunsUpTo_succ]
    have hmono : k * d / N ≤ (k + 1) * d / N :=
      Nat.div_le_div_right (Nat.mul_le_mul_right d (by omega))
    by_cases hm : markEnd d N (k + 1) = true
    · have hlt : k * d / N < (k + 1) * d / N := by
        have := hm
        unfold markEnd at this
        rw [decide_eq_true_eq, Nat.add_sub_cancel] at this
        exact this
      split <;> omega
    · have hf : markEnd d N (k + 1) = false := by
        cases h : markEnd d N (k + 1)
        · rfl
        · exact absurd h hm
      rw [hf]
      simp only [Bool.false_and, Bool.false_eq_true, if_false]
      omega

/-- The count never exceeds the number of marks nor the number of blocks. -/
theorem mismatchedRuns_le (bad : Nat → Bool) (d N : Nat) (hN1 : 1 ≤ N) :
    mismatchedRuns bad d N ≤ min d N := by
  have h1 := mismatchedRunsUpTo_le_marks bad d N N
  rw [Nat.mul_div_cancel_left d (by omega)] at h1
  have h2 := mismatchedRunsUpTo_le bad d N N
  exact le_min h1 h2

/-- With at least as many marks as blocks every block is a run of its own. -/
theorem mismatchedRuns_eq_blocks (bad : Nat → Bool) (d N : Nat) (hN1 : 1 ≤ N) (hNd : N ≤ d) :
    mismatchedRuns bad d N = ((List.range N).filter (fun i => bad (i + 1))).length := by
  unfold mismatchedRuns mismatchedRunsUpTo
  congr 1
  apply List.filter_congr
  intro i hi
  rw [List.mem_range] at hi
  rw [markEnd_all d N (i + 1) hNd (by omega) hN1, Bool.true_and]
  cases hb : bad (i + 1)
  · cases hr : runHasMismatch bad d N (i + 1)
    · rfl
    · exfalso
      obtain ⟨b, h1, h2, h3, h4⟩ := (runHasMismatch_iff bad d N (i + 1)).1 hr
      by_cases hbi : b = i + 1
      · rw [hbi, hb] at h3; exact Bool.noConfusion h3
      · have := h4 b (le_refl _) (by omega)
        rw [markEnd_all d N b hNd h1 hN1] at this
        exact Bool.noConfusion this
  · exact (runHasMismatch_iff bad d N (i + 1)).2
      ⟨i + 1, by omega, le_refl _, hb, fun m h1 h2 => by omega⟩

/-- C14: for a run of `PatternTest` with `PAT_READ` and `PAT_VERIFY` set,
`dots = (78 - length(displayStr + " - Writing: ") - 12) / 2 ≥ 1`, `readmax ≥ 1`
blocks compared and no quit key during the comparison: with the compared blocks
`1..readmax` split into the maximal runs that end at a block `io` where
`floor(io * dots / readmax)` increases, the result is the number of runs that
contain at least one mismatching block; so it is at least 1 whenever a compared
block mismatches, at most `min(dots, readmax)`, and equal to the number of
mismatching blocks whenever `readmax ≤ dots`. -/
theorem PatternTest_marked_runs (env : PatternIO) (TestSize : Int) (QUIT : Bool)
    (wb : List Nat) (displayStr : String) (mode : Nat) (dots readmax : Nat)
    (hopen : env.openOk = true) (hbits : 32 ≤ env.sizeBits)
    (_hread : mode &&& PAT_READ ≠ 0) (hverify : mode &&& PAT_VERIFY ≠ 0)
    (hlo : -(2 ^ 31) ≤ TestSize) (hhi : TestSize < 2 ^ 31) (hlen : wb.length ≤ 32768)
    (hdots : (dots : Int) = (78 - ((displayStr.length + 12 : Nat) : Int) - 12) / 2)
    (hdots1 : 1 ≤ dots)
    (hcompared : (PatternTest env TestSize QUIT wb displayStr mode).read = readmax)
    (hreadmax1 : 1 ≤ readmax)
    (hnoquit : ∀ io, noQuit (env.readKey io)) :
    (PatternTest env TestSize QUIT wb displayStr mode).ret
      = (mismatchedRuns (fun io => blockMismatch wb (env.readBack io)) dots readmax : Nat) ∧
    ((∃ io, 1 ≤ io ∧ io ≤ readmax ∧ blockMismatch wb (env.readBack io) = true) →
      1 ≤ (PatternTest env TestSize QUIT wb displayStr mode).ret) ∧
    (PatternTest env TestSize QUIT wb displayStr mode).ret ≤ ((min dots readmax : Nat) : Int) ∧
    (readmax ≤ dots →
      (PatternTest env TestSize QUIT wb displayStr mode).ret
        = (erroneousBlocks wb env.readBack readmax : Nat)) := by
  -- the number of marks
  obtain ⟨hd, _, hd27⟩ := dots_eq env.sizeBits hbits displayStr (by rw [← hdots]; omega)
  rw [← hdots] at hd
  rw [hd] at hd27
  -- the state after the write loop
  have hmax := (max_blocks_range TestSize hlo hhi).1
  have hrm := writeLoop_readmax env.writeKey
    (toInt32 (Int.tdiv TestSize (32 * 1024))).toNat 1
    { readmax := toInt32 (Int.tdiv TestSize (32 * 1024)), QUIT := QUIT, written := 0 }
  have hP := PatternTest_of_writeLoop env TestSize QUIT wb displayStr mode hopen _ rfl
  generalize PatternTest.writeLoop env.writeKey
    (toInt32 (Int.tdiv TestSize (32 * 1024))).toNat 1
    { readmax := toInt32 (Int.tdiv TestSize (32 * 1024)), QUIT := QUIT, written := 0 } = w
    at hrm hP
  have hle : w.readmax ≤ 65535 := by
    rcases hrm with h | h | ⟨j, h1, h2, h3⟩
    · rw [h]; exact hmax
    · rw [h]; norm_num
    · rw [h3]; omega
  clear hrm hmax
  rw [hP] at hcompared ⊢
  by_cases hc : w.readmax > 0 ∧ mode &&& PAT_READ ≠ 0
  · rw [if_pos hc] at hcompared ⊢
    have hall := (compareLoop_read_all wb mode (PatternTest.dots env.sizeBits displayStr)
      w.readmax env.readBack env.readKey w.readmax.toNat 1
      { errCount := 0, totalErrors := 0, currentDot := 0, QUIT := w.QUIT, read := 0 }
      (fun k _ _ => hnoquit k)).1
    have hN : w.readmax.toNat = readmax := by
      have h2 : (PatternTest.compareLoop wb mode (PatternTest.dots env.sizeBits displayStr)
        w.readmax env.readBack env.readKey w.readmax.toNat 1
        { errCount := 0, totalErrors := 0, currentDot := 0, QUIT := w.QUIT,
          read := 0 }).read = readmax := hcompared
      rw [hall] at h2
      simpa using h2
    have hNi : w.readmax = (readmax : Int) := by
      have := hc.1
      omega
    have hN2 : readmax < 65536 := by omega
    have hret := compareLoop_marked_runs wb mode hverify dots readmax hdots1 (by omega)
      hreadmax1 hN2 hlen env.readBack env.readKey hnoquit readmax 1
      { errCount := 0, totalErrors := 0, currentDot := 0, QUIT := w.QUIT, read := 0 }
      (le_refl _) (by omega) (by simp [toInt32])
      (by
        constructor
        · intro h; exact absurd rfl h
        · rintro ⟨b, h1, h2, _⟩; omega)
      (le_refl _) (by norm_num) (by simp [mismatchedRunsUpTo])
    have hret2 : (PatternTest.compareLoop wb mode (PatternTest.dots env.sizeBits displayStr)
        w.readmax env.readBack env.readKey w.readmax.toNat 1
        { errCount := 0, totalErrors := 0, currentDot := 0, QUIT := w.QUIT,
          read := 0 }).totalErrors
        = (mismatchedRuns (fun io => blockMismatch wb (env.readBack io)) dots readmax : Nat) := by
      rw [hd, hN, hNi]; exact hret
    refine ⟨hret2, ?_, ?_, ?_⟩
    · intro hex
      show 1 ≤ (PatternTest.compareLoop wb mode (PatternTest.dots env.sizeBits displayStr)
        w.readmax env.readBack env.readKey w.readmax.toNat 1
        { errCount := 0, totalErrors := 0, currentDot := 0, QUIT := w.QUIT,
          read := 0 }).totalErrors
      rw [hret2]
      exact_mod_cast mismatchedRuns_pos _ dots readmax hdots1 hreadmax1 hex
    · show (PatternTest.compareLoop wb mode (PatternTest.dots env.sizeBits displayStr)
        w.readmax env.readBack env.readKey w.readmax.toNat 1
        { errCount := 0, totalErrors := 0, currentDot := 0, QUIT := w.QUIT,
          read := 0 }).totalErrors ≤ _
      rw [hret2]
      exact_mod_cast mismatchedRuns_le _ dots readmax hreadmax1
    · intro hNd
      show (PatternTest.compareLoop wb mode (PatternTest.dots env.sizeBits displayStr)
        w.readmax env.readBack env.readKey w.readmax.toNat 1
        { errCount := 0, totalErrors := 0, currentDot := 0, QUIT := w.QUIT,
          read := 0 }).totalErrors = _
      rw [hret2, mismatchedRuns_eq_blocks _ dots readmax hreadmax1 hNd]
      rfl
  · rw [if_neg hc] at hcompared
    have : (0 : Nat) = readmax := hcompared
    omega

/-- Witness for C14: a file of 21 blocks, 20 marks, every block read back as
zeros. -/
theorem PatternTest_marked_runs_witness :
    (PatternTest zeroDisk 688128 false blockAA55 "Pattern 0xAA55"
      (PAT_READ ||| PAT_WRITE ||| PAT_VERIFY)).ret
      = (mismatchedRuns (fun io => blockMismatch blockAA55 (zeroDisk.readBack io)) 20 21 : Nat) :=
  (PatternTest_marked_runs zeroDisk 688128 false blockAA55 "Pattern 0xAA55"
    (PAT_READ ||| PAT_WRITE ||| PAT_VERIFY) 20 21 rfl (by decide) (by decide) (by decide)
    (by decide) (by decide) (by rw [blockAA55, List.length_replicate]; decide) (by decide)
    (by decide) (by decide!) (by decide)
    (fun _ _ h => Option.noConfusion h)).1

end DiskTest
